import Mathlib

/-!
A shallow embedding of the Kropki Sudoku solver (`kropki.py`, class
`KropkiSudoku`) together with proofs about its behaviour.

The mutable Python object is modelled as a state record (`KState`) that is
threaded explicitly through the operations.  The board and the domain table
are modelled as functions `Nat → Nat → _`; all accesses the Python code
performs are at indices `0..8`, so this is faithful for well-formed inputs.
The two dot matrices (`horizontal_dots`, a 9×8 matrix, and `vertical_dots`,
an 8×9 matrix) are never mutated by the solver, so they are passed as plain
function parameters `hdots`/`vdots` rather than stored in the state.
Python `for` loops over index ranges become folds (`loopList`) over the
corresponding range lists.
-/

namespace Kropki

/-- Point update of a curried two-argument function (models `m[r][c] = v`). -/
def upd2 {α : Type} (f : Nat → Nat → α) (r c : Nat) (v : α) : Nat → Nat → α :=
  fun r' c' => if r' = r ∧ c' = c then v else f r' c'

/-- A left fold written as explicit recursion; models a Python `for` loop
over the list of indices with loop body `f` acting on accumulated state. -/
def loopList {σ α : Type} (f : σ → α → σ) : σ → List α → σ
  | acc, [] => acc
  | acc, a :: as => loopList f (f acc a) as

/-- `range(1, 10)` — the candidate values 1..9. -/
def rng19 : List Nat := List.range' 1 9

/-- `abs(a - b)` on Python ints, for natural inputs. -/
def absDiff (a b : Nat) : Nat := ((a : Int) - (b : Int)).natAbs

/-- The cells of the 3×3 block containing `(row, col)`, in the order the
Python nested loops `for r in range(start_row, start_row+3): for c in ...`
visit them (`start_row = 3*(row//3)`, `start_col = 3*(col//3)`). -/
def blockCells (row col : Nat) : List (Nat × Nat) :=
  (List.range 3).flatMap fun dr =>
    (List.range 3).map fun dc => (3 * (row / 3) + dr, 3 * (col / 3) + dc)

/-- All 81 cells in row-major order, as visited by
`for row in range(9): for col in range(9)`. -/
def rowMajor : List (Nat × Nat) :=
  (List.range 9).flatMap fun r => (List.range 9).map fun c => (r, c)

/-- The solver's mutable state: the board (`self.board`) and the per-cell
domain table (`self.domains`). -/
structure KState where
  board : Nat → Nat → Nat
  domains : Nat → Nat → List Nat

/-- `__init__`: domains of each cell, considering pre-filled values
(`[num for num in range(1, 10) if board[row][col] == 0 or board[row][col] == num]`). -/
def init_domains (initial_board : Nat → Nat → Nat) : Nat → Nat → List Nat :=
  fun row col =>
    rng19.filter fun num => initial_board row col == 0 || initial_board row col == num

/-- `KropkiSudoku(initial_board, ...)`: copy the board and initialize domains. -/
def mkState (initial_board : Nat → Nat → Nat) : KState :=
  ⟨initial_board, init_domains initial_board⟩

/-- The dot-constraint test shared by all four directions inside
`is_valid_assignment`: given the dot value, the candidate `num` and the
(nonzero) partner value, does the check reject the assignment?
(White dot `1`: reject unless `abs(num - other) == 1`; black dot `2`:
reject unless `num == 2*other or other == 2*num`.) -/
def dotFail (dot num other : Nat) : Bool :=
  if other != 0 then
    if dot == 1 && absDiff num other != 1 then true
    else if dot == 2 && num != 2 * other && other != 2 * num then true
    else false
  else false

/-- `KropkiSudoku.is_valid_assignment(row, col, num)`.  The Python method is
a chain of early `return False` checks, equivalently the conjunction below:
row uniqueness, column uniqueness, 3×3-block uniqueness, then the four
adjacent dot constraints (right, left, down, up), each guarded exactly as in
the source. -/
def is_valid_assignment (hdots vdots : Nat → Nat → Nat) (b : Nat → Nat → Nat)
    (row col num : Nat) : Bool :=
  !((List.range 9).any fun j => b row j == num) &&
  !((List.range 9).any fun i => b i col == num) &&
  !((blockCells row col).any fun p => b p.1 p.2 == num) &&
  !(decide (col < 8) && hdots row col != 0 && dotFail (hdots row col) num (b row (col + 1))) &&
  !(decide (0 < col) && hdots row (col - 1) != 0 && dotFail (hdots row (col - 1)) num (b row (col - 1))) &&
  !(decide (row < 8) && vdots row col != 0 && dotFail (vdots row col) num (b (row + 1) col)) &&
  !(decide (0 < row) && vdots (row - 1) col != 0 && dotFail (vdots (row - 1) col) num (b (row - 1) col))

/-- One conditional domain removal inside `forward_check`:
`if board[p] == 0 and num in domains[p]: domains[p].remove(num); affected.append(p)`. -/
def fcCellStep (num : Nat) (acc : KState × List (Nat × Nat)) (p : Nat × Nat) :
    KState × List (Nat × Nat) :=
  if acc.1.board p.1 p.2 == 0 && (acc.1.domains p.1 p.2).contains num then
    (⟨acc.1.board, upd2 acc.1.domains p.1 p.2 ((acc.1.domains p.1 p.2).erase num)⟩,
     acc.2 ++ [p])
  else acc

/-- One iteration of `forward_check`'s first loop: for index `i`, the cell
`(row, i)` in the row and then the cell `(i, col)` in the column. -/
def fcRowColStep (row col num : Nat) (acc : KState × List (Nat × Nat)) (i : Nat) :
    KState × List (Nat × Nat) :=
  fcCellStep num (fcCellStep num acc (row, i)) (i, col)

/-- `KropkiSudoku.update_domain_with_dot_constraint(row, col, num, dot_type,
affected_cells)`: if `(row, col)` is in range and empty, replace its domain
by the values consistent with the dot relation to `num` (white keeps the
values at distance 1, black keeps the double/half values, any other dot
value leaves the domain unchanged) and append the cell to the affected list. -/
def update_domain_with_dot_constraint (s : KState) (aff : List (Nat × Nat))
    (row col num dot_type : Nat) : KState × List (Nat × Nat) :=
  if decide (row < 9) && decide (col < 9) && s.board row col == 0 then
    let dom := s.domains row col
    let dom' := if dot_type == 1 then dom.filter fun x => absDiff x num == 1
                else if dot_type == 2 then dom.filter fun x => x == 2 * num || num == 2 * x
                else dom
    (⟨s.board, upd2 s.domains row col dom'⟩, aff ++ [(row, col)])
  else (s, aff)

/-- The mutating part of `KropkiSudoku.forward_check(row, col, num)`: prune
`num` from the domains along the row, the column and the 3×3 block, then
apply the four dot-constraint prunings, returning the updated state and the
list of affected cells.  The Python bounds tests against
`len(self.horizontal_dots)` / `len(self.vertical_dots)` are always true at
these indices for the well-formed 9×8 and 8×9 dot matrices and are dropped. -/
def forward_check_aux (hdots vdots : Nat → Nat → Nat) (s : KState)
    (row col num : Nat) : KState × List (Nat × Nat) :=
  let acc := loopList (fcRowColStep row col num) (s, []) (List.range 9)
  let acc := loopList (fcCellStep num) acc (blockCells row col)
  let acc := if col < 8 then
      update_domain_with_dot_constraint acc.1 acc.2 row (col + 1) num (hdots row col)
    else acc
  let acc := if 0 < col then
      update_domain_with_dot_constraint acc.1 acc.2 row (col - 1) num (hdots row (col - 1))
    else acc
  let acc := if row < 8 then
      update_domain_with_dot_constraint acc.1 acc.2 (row + 1) col num (vdots row col)
    else acc
  if 0 < row then
    update_domain_with_dot_constraint acc.1 acc.2 (row - 1) col num (vdots (row - 1) col)
  else acc

/-- `KropkiSudoku.forward_check(row, col, num)`: the pruning above followed
by the final check `for r, c in affected_cells: if not self.domains[r][c]:
return False` / `return True`. -/
def forward_check (hdots vdots : Nat → Nat → Nat) (s : KState)
    (row col num : Nat) : Bool × KState :=
  let sa := forward_check_aux hdots vdots s row col num
  (sa.2.all fun p => !(sa.1.domains p.1 p.2).isEmpty, sa.1)

/-- One recomputation inside `restore_domains`: if cell `(i, j)` is empty,
set its domain to `[x for x in range(1, 10) if self.is_valid_assignment(i, j, x)]`. -/
def restoreCell (hdots vdots : Nat → Nat → Nat) (s : KState) (i j : Nat) : KState :=
  if s.board i j == 0 then
    ⟨s.board, upd2 s.domains i j
      (rng19.filter fun x => is_valid_assignment hdots vdots s.board i j x)⟩
  else s

/-- `KropkiSudoku.restore_domains(row, col, num)`: recompute from scratch
the domains of the empty cells in the same row, column and 3×3 block.  (The
`num` parameter of the Python method is unused and omitted here.) -/
def restore_domains (hdots vdots : Nat → Nat → Nat) (s : KState) (row col : Nat) :
    KState :=
  let s1 :=
    loopList (fun t i => restoreCell hdots vdots (restoreCell hdots vdots t row i) i col)
      s (List.range 9)
  loopList (fun t p => restoreCell hdots vdots t p.1 p.2) s1 (blockCells row col)

/-- `KropkiSudoku.count_constraints(row, col)`: the number of filled cells
sharing the row, the column or the 3×3 block with `(row, col)`. -/
def count_constraints (b : Nat → Nat → Nat) (row col : Nat) : Nat :=
  loopList
    (fun acc p =>
      if (p.1 == row || p.2 == col || (p.1 / 3 == row / 3 && p.2 / 3 == col / 3)) &&
          b p.1 p.2 != 0
      then acc + 1 else acc)
    0 rowMajor

/-- One iteration of the scan in `select_unassigned_variable`: the
accumulator is `(min_remaining_values, max_degree, selected_var)`, updated
when `remaining < min_remaining or (remaining == min_remaining and degree >
max_degree)`. -/
def selStep (s : KState) (acc : Nat × Int × Option (Nat × Nat)) (row col : Nat) :
    Nat × Int × Option (Nat × Nat) :=
  if s.board row col == 0 then
    let remaining := (s.domains row col).length
    let degree : Int := (count_constraints s.board row col : Int)
    if decide (remaining < acc.1) || (remaining == acc.1 && decide (acc.2.1 < degree))
    then (remaining, degree, some (row, col)) else acc
  else acc

/-- The scan of `select_unassigned_variable` over the first `k` cells in
row-major order (cell `k` is `(k / 9, k % 9)`; the Python nested loops
`for row in range(9): for col in range(9)` visit the cells in exactly this
order), starting from `(10, -1, None)`. -/
def selScan (s : KState) : Nat → Nat × Int × Option (Nat × Nat)
  | 0 => (10, -1, none)
  | k + 1 => selStep s (selScan s k) (k / 9) (k % 9)

/-- `KropkiSudoku.select_unassigned_variable()`. -/
def select_unassigned_variable (s : KState) : Option (Nat × Nat) :=
  (selScan s 81).2.2

/-- Insert into a sorted list, ascending. -/
def insertAsc (x : Nat) : List Nat → List Nat
  | [] => [x]
  | y :: ys => if x ≤ y then x :: y :: ys else y :: insertAsc x ys

/-- Python `sorted` (ascending) on a list of numbers, as insertion sort. -/
def sortAsc : List Nat → List Nat
  | [] => []
  | x :: xs => insertAsc x (sortAsc xs)

/-- The candidate loop of `KropkiSudoku.solve`: `for num in
sorted(self.domains[row][col])`, try `num` if `is_valid_assignment`, assign,
forward check, recurse via `recur`; on failure of either, reset the cell to
`0`, `restore_domains`, and continue with the next candidate. -/
def solveLoop (hdots vdots : Nat → Nat → Nat) (recur : KState → Bool × KState)
    (row col : Nat) : KState → List Nat → Bool × KState
  | s, [] => (false, s)
  | s, num :: rest =>
    if is_valid_assignment hdots vdots s.board row col num then
      let s1 : KState := ⟨upd2 s.board row col num, s.domains⟩
      let fcr := forward_check hdots vdots s1 row col num
      if fcr.1 then
        let r2 := recur fcr.2
        if r2.1 then r2
        else
          let s4 : KState := ⟨upd2 r2.2.board row col 0, r2.2.domains⟩
          solveLoop hdots vdots recur row col (restore_domains hdots vdots s4 row col) rest
      else
        let s4 : KState := ⟨upd2 fcr.2.board row col 0, fcr.2.domains⟩
        solveLoop hdots vdots recur row col (restore_domains hdots vdots s4 row col) rest
    else solveLoop hdots vdots recur row col s rest

/-- `KropkiSudoku.solve()`: select an unassigned cell (returning success if
none remains) and run the candidate loop.  The recursion is bounded by
`fuel`; running out of fuel returns failure, and `solve_fuel_irrelevant`
below shows any `fuel > ` (number of empty cells) gives the same result, so
the Python recursion (which always assigns a previously empty cell before
recursing) is captured faithfully. -/
def solve (hdots vdots : Nat → Nat → Nat) : Nat → KState → Bool × KState
  | 0, s => (false, s)
  | fuel + 1, s =>
    match select_unassigned_variable s with
    | none => (true, s)
    | some (row, col) =>
      solveLoop hdots vdots (fun t => solve hdots vdots fuel t) row col s
        (sortAsc (s.domains row col))

/-- A 9×9 matrix given by rows, as a function (out-of-range reads give 0,
matching no read the solver performs). -/
def boardOfRows (rows : List (List Nat)) : Nat → Nat → Nat :=
  fun r c => (rows.getD r []).getD c 0

/-- The all-zero dot matrix (no markers). -/
def zeroDots : Nat → Nat → Nat := fun _ _ => 0

/-! ### Basic facts about the building blocks -/

theorem upd2_self {α : Type} (f : Nat → Nat → α) (r c : Nat) (v : α) :
    upd2 f r c v r c = v := by
  simp [upd2]

theorem upd2_ne {α : Type} (f : Nat → Nat → α) (r c : Nat) (v : α) {r' c' : Nat}
    (h : ¬(r' = r ∧ c' = c)) : upd2 f r c v r' c' = f r' c' := by
  simp [upd2, h]

theorem loopList_inv {σ α : Type} (P : σ → Prop) (f : σ → α → σ)
    (hf : ∀ acc a, P acc → P (f acc a)) :
    ∀ (l : List α) (acc : σ), P acc → P (loopList f acc l) := by
  intro l
  induction l with
  | nil => intro acc h; exact h
  | cons a as ih => intro acc h; exact ih _ (hf acc a h)

theorem loopList_mem_inv {σ α : Type} (P : σ → Prop) (f : σ → α → σ) (l : List α)
    (hf : ∀ acc a, a ∈ l → P acc → P (f acc a)) :
    ∀ (acc : σ), P acc → P (loopList f acc l) := by
  induction l with
  | nil => intro acc h; exact h
  | cons a as ih =>
      intro acc h
      exact ih (fun acc a ha => hf acc a (List.mem_cons_of_mem _ ha)) _
        (hf acc a (List.mem_cons_self _ _) h)

theorem rng19_eq : rng19 = [1, 2, 3, 4, 5, 6, 7, 8, 9] := rfl

theorem mem_rng19 {v : Nat} : v ∈ rng19 ↔ 1 ≤ v ∧ v ≤ 9 := by
  rw [rng19_eq]
  simp
  omega

theorem rng19_length : rng19.length = 9 := by decide

theorem mem_insertAsc {x v : Nat} : ∀ {l : List Nat},
    v ∈ insertAsc x l ↔ v = x ∨ v ∈ l := by
  intro l
  induction l with
  | nil => simp [insertAsc]
  | cons y ys ih =>
      by_cases h : x ≤ y <;> (simp [insertAsc, h, ih]; try tauto)

theorem mem_sortAsc {v : Nat} : ∀ {l : List Nat}, v ∈ sortAsc l ↔ v ∈ l := by
  intro l
  induction l with
  | nil => simp [sortAsc]
  | cons y ys ih => simp [sortAsc, mem_insertAsc, ih]

theorem mem_blockCells {row col : Nat} {p : Nat × Nat} :
    p ∈ blockCells row col ↔
      ∃ dr, dr < 3 ∧ ∃ dc, dc < 3 ∧ p = (3 * (row / 3) + dr, 3 * (col / 3) + dc) := by
  simp [blockCells]
  constructor
  · rintro ⟨dr, hdr, dc, hdc, h⟩
    exact ⟨dr, hdr, dc, hdc, h.symm⟩
  · rintro ⟨dr, hdr, dc, hdc, h⟩
    exact ⟨dr, hdr, dc, hdc, h.symm⟩

theorem mem_rowMajor {p : Nat × Nat} :
    p ∈ rowMajor ↔ p.1 < 9 ∧ p.2 < 9 := by
  obtain ⟨r, c⟩ := p
  simp [rowMajor, eq_comm]

/-! ### Frame lemmas: the domain-table operations never touch the board -/

theorem fcCellStep_board (num : Nat) (acc : KState × List (Nat × Nat)) (p : Nat × Nat) :
    ((fcCellStep num acc p).1).board = acc.1.board := by
  unfold fcCellStep
  split <;> rfl

theorem fcRowColStep_board (row col num : Nat) (acc : KState × List (Nat × Nat)) (i : Nat) :
    ((fcRowColStep row col num acc i).1).board = acc.1.board := by
  unfold fcRowColStep
  rw [fcCellStep_board, fcCellStep_board]

theorem update_dot_board (s : KState) (aff : List (Nat × Nat)) (row col num dot_type : Nat) :
    ((update_domain_with_dot_constraint s aff row col num dot_type).1).board = s.board := by
  unfold update_domain_with_dot_constraint
  split <;> rfl

theorem forward_check_aux_board (hdots vdots : Nat → Nat → Nat) (s : KState)
    (row col num : Nat) :
    ((forward_check_aux hdots vdots s row col num).1).board = s.board := by
  unfold forward_check_aux
  have h1 : ∀ (l : List Nat) (acc : KState × List (Nat × Nat)),
      acc.1.board = s.board → ((loopList (fcRowColStep row col num) acc l).1).board = s.board :=
    fun l acc h =>
      loopList_inv (fun acc => acc.1.board = s.board) _
        (fun acc i h => by
          show ((fcRowColStep row col num acc i).1).board = s.board
          rw [fcRowColStep_board]; exact h) l acc h
  have h2 : ∀ (l : List (Nat × Nat)) (acc : KState × List (Nat × Nat)),
      acc.1.board = s.board → ((loopList (fcCellStep num) acc l).1).board = s.board :=
    fun l acc h =>
      loopList_inv (fun acc => acc.1.board = s.board) _
        (fun acc p h => by
          show ((fcCellStep num acc p).1).board = s.board
          rw [fcCellStep_board]; exact h) l acc h
  have hbase : ((loopList (fcCellStep num)
      (loopList (fcRowColStep row col num) (s, []) (List.range 9))
      (blockCells row col)).1).board = s.board := h2 _ _ (h1 _ _ rfl)
  split <;> split <;> split <;> split <;>
    simp only [update_dot_board, hbase]

theorem forward_check_board (hdots vdots : Nat → Nat → Nat) (s : KState)
    (row col num : Nat) :
    ((forward_check hdots vdots s row col num).2).board = s.board := by
  unfold forward_check
  exact forward_check_aux_board hdots vdots s row col num

theorem restoreCell_board (hdots vdots : Nat → Nat → Nat) (s : KState) (i j : Nat) :
    (restoreCell hdots vdots s i j).board = s.board := by
  unfold restoreCell
  split <;> rfl

theorem loopRestoreRowCol_board (hdots vdots : Nat → Nat → Nat) (row col : Nat) :
    ∀ (l : List Nat) (t : KState),
      (loopList (fun t i => restoreCell hdots vdots (restoreCell hdots vdots t row i) i col)
        t l).board = t.board := by
  intro l
  induction l with
  | nil => intro t; rfl
  | cons a as ih =>
      intro t
      rw [loopList, ih, restoreCell_board, restoreCell_board]

theorem loopRestoreBlock_board (hdots vdots : Nat → Nat → Nat) :
    ∀ (l : List (Nat × Nat)) (t : KState),
      (loopList (fun t p => restoreCell hdots vdots t p.1 p.2) t l).board = t.board := by
  intro l
  induction l with
  | nil => intro t; rfl
  | cons a as ih =>
      intro t
      rw [loopList, ih, restoreCell_board]

theorem restore_domains_board (hdots vdots : Nat → Nat → Nat) (s : KState) (row col : Nat) :
    (restore_domains hdots vdots s row col).board = s.board := by
  unfold restore_domains
  dsimp only
  rw [loopRestoreBlock_board, loopRestoreRowCol_board]

/-! ### Well-formedness of the domain table

Every domain list the solver ever builds has values in 1..9 and at most 9
entries: the initial domains are sublists of `range(1, 10)`, `forward_check`
only erases or filters, and `restore_domains` rebuilds from `range(1, 10)`. -/

/-- A single domain list is well-formed. -/
def domListOK (l : List Nat) : Prop :=
  (∀ v ∈ l, 1 ≤ v ∧ v ≤ 9) ∧ l.length ≤ 9

/-- The whole domain table is well-formed (at the indices the solver uses). -/
def domsOK (d : Nat → Nat → List Nat) : Prop :=
  ∀ r, r < 9 → ∀ c, c < 9 → domListOK (d r c)

theorem domListOK_of_sublist {l l' : List Nat} (h : List.Sublist l' l) (hl : domListOK l) :
    domListOK l' :=
  ⟨fun v hv => hl.1 v (h.mem hv), le_trans h.length_le hl.2⟩

theorem domListOK_erase {l : List Nat} (n : Nat) (hl : domListOK l) :
    domListOK (l.erase n) :=
  domListOK_of_sublist (List.erase_sublist n l) hl

theorem domListOK_filter {l : List Nat} (p : Nat → Bool) (hl : domListOK l) :
    domListOK (l.filter p) :=
  domListOK_of_sublist (List.filter_sublist l) hl

theorem domListOK_rng19_filter (p : Nat → Bool) : domListOK (rng19.filter p) := by
  refine domListOK_of_sublist (List.filter_sublist rng19) ⟨?_, ?_⟩
  · intro v hv; exact mem_rng19.mp hv
  · rw [rng19_length]

theorem domsOK_upd2 {d : Nat → Nat → List Nat} {l : List Nat} (r c : Nat)
    (hd : domsOK d) (hl : domListOK l) : domsOK (upd2 d r c l) := by
  intro r' hr' c' hc'
  show domListOK (if r' = r ∧ c' = c then l else d r' c')
  split
  · exact hl
  · exact hd r' hr' c' hc'

theorem domsOK_init (b : Nat → Nat → Nat) : domsOK (init_domains b) := by
  intro r _ c _
  exact domListOK_rng19_filter _

theorem fcCellStep_domsOK (num : Nat) (acc : KState × List (Nat × Nat)) (p : Nat × Nat)
    (h : domsOK acc.1.domains) : domsOK ((fcCellStep num acc p).1).domains := by
  unfold fcCellStep
  split
  · dsimp only
    by_cases hp : p.1 < 9 ∧ p.2 < 9
    · exact domsOK_upd2 _ _ h (domListOK_erase _ (h p.1 hp.1 p.2 hp.2))
    · intro r' hr' c' hc'
      show domListOK
        (if r' = p.1 ∧ c' = p.2 then (acc.1.domains p.1 p.2).erase num else acc.1.domains r' c')
      split
      · rename_i hq
        exact absurd ⟨hq.1 ▸ hr', hq.2 ▸ hc'⟩ hp
      · exact h r' hr' c' hc'
  · exact h

theorem fcRowColStep_domsOK (row col num : Nat) (acc : KState × List (Nat × Nat)) (i : Nat)
    (h : domsOK acc.1.domains) : domsOK ((fcRowColStep row col num acc i).1).domains :=
  fcCellStep_domsOK _ _ _ (fcCellStep_domsOK _ _ _ h)

theorem update_dot_domsOK (s : KState) (aff : List (Nat × Nat)) (row col num dot_type : Nat)
    (h : domsOK s.domains) :
    domsOK ((update_domain_with_dot_constraint s aff row col num dot_type).1).domains := by
  unfold update_domain_with_dot_constraint
  split
  · rename_i hg
    simp only [Bool.and_eq_true, decide_eq_true_eq] at hg
    have hdom := h row hg.1.1 col hg.1.2
    dsimp only
    split
    · exact domsOK_upd2 _ _ h (domListOK_filter _ hdom)
    · split
      · exact domsOK_upd2 _ _ h (domListOK_filter _ hdom)
      · exact domsOK_upd2 _ _ h hdom
  · exact h

theorem update_dot_if_domsOK (cond : Prop) [inst : Decidable cond]
    (acc : KState × List (Nat × Nat)) (r' c' n' d' : Nat)
    (h : domsOK acc.1.domains) :
    domsOK (((if cond then update_domain_with_dot_constraint acc.1 acc.2 r' c' n' d'
      else acc)).1).domains := by
  split
  · exact update_dot_domsOK _ _ _ _ _ _ h
  · exact h

theorem forward_check_aux_domsOK (hdots vdots : Nat → Nat → Nat) (s : KState)
    (row col num : Nat) (h : domsOK s.domains) :
    domsOK ((forward_check_aux hdots vdots s row col num).1).domains := by
  unfold forward_check_aux
  have h1 : ∀ (l : List Nat) (acc : KState × List (Nat × Nat)), domsOK acc.1.domains →
      domsOK ((loopList (fcRowColStep row col num) acc l).1).domains :=
    fun l acc hacc =>
      loopList_inv (fun acc => domsOK acc.1.domains) _
        (fun acc i hi => fcRowColStep_domsOK row col num acc i hi) l acc hacc
  have h2 : ∀ (l : List (Nat × Nat)) (acc : KState × List (Nat × Nat)), domsOK acc.1.domains →
      domsOK ((loopList (fcCellStep num) acc l).1).domains :=
    fun l acc hacc =>
      loopList_inv (fun acc => domsOK acc.1.domains) _
        (fun acc p hp => fcCellStep_domsOK num acc p hp) l acc hacc
  have hbase : domsOK ((loopList (fcCellStep num)
      (loopList (fcRowColStep row col num) (s, []) (List.range 9))
      (blockCells row col)).1).domains := h2 _ _ (h1 _ _ h)
  dsimp only
  exact update_dot_if_domsOK _ _ _ _ _ _
    (update_dot_if_domsOK _ _ _ _ _ _
      (update_dot_if_domsOK _ _ _ _ _ _
        (update_dot_if_domsOK _ _ _ _ _ _ hbase)))

theorem forward_check_domsOK (hdots vdots : Nat → Nat → Nat) (s : KState)
    (row col num : Nat) (h : domsOK s.domains) :
    domsOK ((forward_check hdots vdots s row col num).2).domains :=
  forward_check_aux_domsOK hdots vdots s row col num h

theorem restoreCell_domsOK (hdots vdots : Nat → Nat → Nat) (s : KState) (i j : Nat)
    (h : domsOK s.domains) : domsOK (restoreCell hdots vdots s i j).domains := by
  unfold restoreCell
  split
  · exact domsOK_upd2 _ _ h (domListOK_rng19_filter _)
  · exact h

theorem restore_domains_domsOK (hdots vdots : Nat → Nat → Nat) (s : KState) (row col : Nat)
    (h : domsOK s.domains) : domsOK (restore_domains hdots vdots s row col).domains := by
  unfold restore_domains
  dsimp only
  exact loopList_inv (fun t : KState => domsOK t.domains) _
    (fun t p ht => restoreCell_domsOK hdots vdots t p.1 p.2 ht) _ _
    (loopList_inv (fun t : KState => domsOK t.domains) _
      (fun t i ht => restoreCell_domsOK hdots vdots _ i col
        (restoreCell_domsOK hdots vdots t row i ht)) _ _ h)

theorem solveLoop_domsOK (hdots vdots : Nat → Nat → Nat) (recur : KState → Bool × KState)
    (row col : Nat) (hrec : ∀ t, domsOK t.domains → domsOK ((recur t).2).domains) :
    ∀ (nums : List Nat) (s : KState), domsOK s.domains →
      domsOK ((solveLoop hdots vdots recur row col s nums).2).domains := by
  intro nums
  induction nums with
  | nil => intro s hs; exact hs
  | cons num rest ih =>
      intro s hs
      rw [solveLoop]
      split
      · dsimp only
        split
        · split
          · rename_i _ _ hr2
            exact hrec _ (forward_check_domsOK _ _ _ _ _ _ hs)
          · exact ih _ (restore_domains_domsOK _ _ _ _ _
              (hrec _ (forward_check_domsOK _ _ _ _ _ _ hs)))
        · exact ih _ (restore_domains_domsOK _ _ _ _ _
            (forward_check_domsOK _ _ _ _ _ _ hs))
      · exact ih _ hs

theorem solve_domsOK (hdots vdots : Nat → Nat → Nat) :
    ∀ (fuel : Nat) (s : KState), domsOK s.domains →
      domsOK ((solve hdots vdots fuel s).2).domains := by
  intro fuel
  induction fuel with
  | zero => intro s hs; exact hs
  | succ fuel ih =>
      intro s hs
      rw [solve]
      split
      · exact hs
      · exact solveLoop_domsOK hdots vdots _ _ _ (fun t ht => ih t ht) _ s hs

/-! ### Characterizing `select_unassigned_variable` -/

/-- The `remaining_values` the scan computes for a cell. -/
def remOf (s : KState) (p : Nat × Nat) : Nat := (s.domains p.1 p.2).length

/-- The `degree` the scan computes for a cell. -/
def degOf (s : KState) (p : Nat × Nat) : Int := (count_constraints s.board p.1 p.2 : Int)

/-- Cell `q` beats cell `p` under the MRV-then-degree comparison used by the
scan (`remaining < min_remaining or (remaining == min_remaining and degree >
max_degree)`). -/
def betterCell (s : KState) (q p : Nat × Nat) : Prop :=
  remOf s q < remOf s p ∨ (remOf s q = remOf s p ∧ degOf s p < degOf s q)

theorem betterCell_irrefl (s : KState) (p : Nat × Nat) : ¬ betterCell s p p := by
  unfold betterCell
  rintro (h | ⟨-, h⟩) <;> omega

theorem betterCell_asymm {s : KState} {x j : Nat × Nat} (h : betterCell s x j) :
    ¬ betterCell s j x := by
  unfold betterCell at *
  rcases h with h | ⟨h1, h2⟩ <;> rintro (h' | ⟨h'1, h'2⟩) <;> omega

theorem betterCell_helper {s : KState} {x p j : Nat × Nat}
    (h1 : betterCell s x p) (h2 : ¬ betterCell s j p) : betterCell s x j := by
  unfold betterCell at *
  push_neg at h2
  rcases h1 with h | ⟨ha, hb⟩
  · rcases Nat.lt_or_ge (remOf s x) (remOf s j) with h' | h'
    · exact Or.inl h'
    · have := h2.1
      have := h2.2
      left; omega
  · have := h2.1
    rcases Nat.lt_or_ge (remOf s x) (remOf s j) with h' | h'
    · exact Or.inl h'
    · have hj := h2.2
      right
      constructor
      · omega
      · have : remOf s j = remOf s p := by omega
        have := hj this
        omega

/-- `selStep` with its Boolean tests rephrased as propositions. -/
theorem selStep_eq (s : KState) (acc : Nat × Int × Option (Nat × Nat)) (row col : Nat) :
    selStep s acc row col =
      if s.board row col = 0 then
        (if (s.domains row col).length < acc.1 ∨
            ((s.domains row col).length = acc.1 ∧
              acc.2.1 < (count_constraints s.board row col : Int))
         then ((s.domains row col).length, (count_constraints s.board row col : Int),
               some (row, col))
         else acc)
      else acc := by
  unfold selStep
  by_cases hb : s.board row col = 0
  · rw [if_pos (by simp [hb]), if_pos hb]
    dsimp only
    by_cases hc : (s.domains row col).length < acc.1 ∨
        ((s.domains row col).length = acc.1 ∧
          acc.2.1 < (count_constraints s.board row col : Int))
    · rw [if_pos hc, if_pos]
      simp only [Bool.or_eq_true, decide_eq_true_eq, Bool.and_eq_true, beq_iff_eq]
      exact hc
    · rw [if_neg hc, if_neg]
      simp only [Bool.or_eq_true, decide_eq_true_eq, Bool.and_eq_true, beq_iff_eq]
      exact hc
  · rw [if_neg (by simp [hb]), if_neg hb]

/-- The degree value is never below the initial `max_degree = -1`. -/
theorem neg_one_lt_degOf (s : KState) (p : Nat × Nat) : (-1 : Int) < degOf s p := by
  unfold degOf
  omega

/-- Invariant of the row-major scan of `select_unassigned_variable` after `k`
steps: if nothing is selected, every empty cell seen so far had at least 11
domain entries (impossible for well-formed domains); if `p` is selected, `p`
is an empty cell seen at scan position `jp`, the accumulator holds its
remaining count and degree, no seen empty cell beats `p`, and `p` strictly
beats every empty cell seen before position `jp`. -/
theorem selScan_inv (s : KState) :
    ∀ k : Nat,
      ((selScan s k).2.2 = none →
        (selScan s k).1 = 10 ∧ (selScan s k).2.1 = -1 ∧
        ∀ j, j < k → s.board (j / 9) (j % 9) = 0 →
          11 ≤ (s.domains (j / 9) (j % 9)).length) ∧
      (∀ p, (selScan s k).2.2 = some p →
        ∃ jp, jp < k ∧ p = (jp / 9, jp % 9) ∧ s.board p.1 p.2 = 0 ∧
          (selScan s k).1 = remOf s p ∧ (selScan s k).2.1 = degOf s p ∧
          (∀ j, j < k → s.board (j / 9) (j % 9) = 0 → ¬ betterCell s (j / 9, j % 9) p) ∧
          (∀ j, j < jp → s.board (j / 9) (j % 9) = 0 → betterCell s p (j / 9, j % 9))) := by
  intro k
  induction k with
  | zero =>
      constructor
      · intro _
        exact ⟨rfl, rfl, fun j hj _ => absurd hj (Nat.not_lt_zero j)⟩
      · intro p hp
        exact absurd hp (by simp [selScan])
  | succ k ih =>
      rw [selScan, selStep_eq]
      by_cases hb : s.board (k / 9) (k % 9) = 0
      · rw [if_pos hb]
        by_cases hc : (s.domains (k / 9) (k % 9)).length < (selScan s k).1 ∨
            ((s.domains (k / 9) (k % 9)).length = (selScan s k).1 ∧
              (selScan s k).2.1 < (count_constraints s.board (k / 9) (k % 9) : Int))
        · rw [if_pos hc]
          refine ⟨fun h => absurd h (by simp), ?_⟩
          intro p hp
          injection hp with hp
          subst hp
          refine ⟨k, Nat.lt_succ_self k, rfl, hb, rfl, rfl, ?_, ?_⟩
          · -- no seen empty cell beats the newly selected cell
            rcases Option.eq_none_or_eq_some (selScan s k).2.2 with hnone | ⟨q, hq⟩
            · -- nothing was selected before: every earlier empty cell has a huge domain
              obtain ⟨hmr, hmd, hbig⟩ := ih.1 hnone
              intro j hj hje
              rcases Nat.lt_or_ge j k with hjk | hjk
              · have h11 := hbig j hjk hje
                rw [hmr] at hc
                have hlen10 : (s.domains (k / 9) (k % 9)).length ≤ 10 := by
                  rcases hc with h | ⟨h, -⟩ <;> omega
                intro hbet
                unfold betterCell remOf degOf at hbet
                dsimp only at hbet
                rcases hbet with h' | ⟨h', -⟩ <;> omega
              · rw [show j = k from by omega]
                exact betterCell_irrefl s _
            · -- q was selected before and the new cell beats q
              obtain ⟨jq, hjq, hq2, hq3, hmr, hmd, hnob, -⟩ := ih.2 q hq
              rw [hmr, hmd] at hc
              have hbetter : betterCell s (k / 9, k % 9) q := hc
              intro j hj hje
              rcases Nat.lt_or_ge j k with hjk | hjk
              · have hnb := hnob j hjk hje
                intro hbet
                exact betterCell_asymm (betterCell_helper hbetter hnb) hbet
              · rw [show j = k from by omega]
                exact betterCell_irrefl s _
          · -- the newly selected cell strictly beats every earlier empty cell
            rcases Option.eq_none_or_eq_some (selScan s k).2.2 with hnone | ⟨q, hq⟩
            · obtain ⟨hmr, hmd, hbig⟩ := ih.1 hnone
              intro j hj hje
              have h11 := hbig j hj hje
              rw [hmr] at hc
              have hlen10 : (s.domains (k / 9) (k % 9)).length ≤ 10 := by
                rcases hc with h | ⟨h, -⟩ <;> omega
              unfold betterCell remOf degOf
              dsimp only
              left
              omega
            · obtain ⟨jq, hjq, hq2, hq3, hmr, hmd, hnob, -⟩ := ih.2 q hq
              rw [hmr, hmd] at hc
              have hbetter : betterCell s (k / 9, k % 9) q := hc
              intro j hj hje
              exact betterCell_helper hbetter (hnob j hj hje)
        · rw [if_neg hc]
          constructor
          · intro hnone
            obtain ⟨hmr, hmd, hbig⟩ := ih.1 hnone
            refine ⟨hmr, hmd, fun j hj hje => ?_⟩
            rcases Nat.lt_or_ge j k with hjk | hjk
            · exact hbig j hjk hje
            · rw [show j = k from by omega]
              rw [hmr, hmd] at hc
              push_neg at hc
              have h1 := hc.1
              have h2 := hc.2
              by_contra hle
              push_neg at hle
              have h10 : (s.domains (k / 9) (k % 9)).length = 10 := by omega
              have h2' := h2 h10
              have h3 := neg_one_lt_degOf s (k / 9, k % 9)
              unfold degOf at h3
              omega
          · intro p hp
            obtain ⟨jp, hjp, hp2, hp3, hmr, hmd, hnob, hbeat⟩ := ih.2 p hp
            refine ⟨jp, Nat.lt_succ_of_lt hjp, hp2, hp3, hmr, hmd, ?_, hbeat⟩
            intro j hj hje
            rcases Nat.lt_or_ge j k with hjk | hjk
            · exact hnob j hjk hje
            · rw [show j = k from by omega]
              rw [hmr, hmd] at hc
              exact fun hbet => hc hbet
      · rw [if_neg hb]
        constructor
        · intro hnone
          obtain ⟨hmr, hmd, hbig⟩ := ih.1 hnone
          refine ⟨hmr, hmd, fun j hj hje => ?_⟩
          rcases Nat.lt_or_ge j k with hjk | hjk
          · exact hbig j hjk hje
          · rw [show j = k from by omega] at hje
            exact absurd hje hb
        · intro p hp
          obtain ⟨jp, hjp, hp2, hp3, hmr, hmd, hnob, hbeat⟩ := ih.2 p hp
          refine ⟨jp, Nat.lt_succ_of_lt hjp, hp2, hp3, hmr, hmd, ?_, hbeat⟩
          intro j hj hje
          rcases Nat.lt_or_ge j k with hjk | hjk
          · exact hnob j hjk hje
          · rw [show j = k from by omega] at hje
            exact absurd hje hb

theorem cellIdx_div (r c : Nat) (_hr : r < 9) (hc : c < 9) : (9 * r + c) / 9 = r := by
  omega

theorem cellIdx_mod (r c : Nat) (_hr : r < 9) (hc : c < 9) : (9 * r + c) % 9 = c := by
  omega

/-- What a successful selection guarantees: the selected cell is an empty
in-range cell, no empty cell strictly beats it under MRV-then-degree, and
among empty cells with equal remaining count and degree it is the first in
row-major order. -/
theorem select_some_spec (s : KState) (p : Nat × Nat)
    (h : select_unassigned_variable s = some p) :
    p.1 < 9 ∧ p.2 < 9 ∧ s.board p.1 p.2 = 0 ∧
    (∀ q : Nat × Nat, q.1 < 9 → q.2 < 9 → s.board q.1 q.2 = 0 → ¬ betterCell s q p) ∧
    (∀ q : Nat × Nat, q.1 < 9 → q.2 < 9 → s.board q.1 q.2 = 0 →
      remOf s q = remOf s p → degOf s q = degOf s p → 9 * p.1 + p.2 ≤ 9 * q.1 + q.2) := by
  obtain ⟨jp, hjp, hp2, hp3, -, -, hnob, hbeat⟩ := (selScan_inv s 81).2 p h
  have hp1 : p.1 = jp / 9 := by rw [hp2]
  have hp2' : p.2 = jp % 9 := by rw [hp2]
  refine ⟨by omega, by omega, hp3, ?_, ?_⟩
  · intro q hq1 hq2 hqe
    have hj : 9 * q.1 + q.2 < 81 := by omega
    have hq : q = ((9 * q.1 + q.2) / 9, (9 * q.1 + q.2) % 9) := by
      rw [cellIdx_div _ _ hq1 hq2, cellIdx_mod _ _ hq1 hq2]
    intro hbet
    refine hnob (9 * q.1 + q.2) hj ?_ ?_
    · rw [cellIdx_div _ _ hq1 hq2, cellIdx_mod _ _ hq1 hq2]
      exact hqe
    · rw [cellIdx_div _ _ hq1 hq2, cellIdx_mod _ _ hq1 hq2]
      exact hbet
  · intro q hq1 hq2 hqe hrem hdeg
    by_contra hlt
    push_neg at hlt
    have hjq : 9 * q.1 + q.2 < jp := by omega
    have hb := hbeat (9 * q.1 + q.2) hjq
      (by rw [cellIdx_div _ _ hq1 hq2, cellIdx_mod _ _ hq1 hq2]; exact hqe)
    rw [show ((9 * q.1 + q.2) / 9, (9 * q.1 + q.2) % 9) = q from by
      rw [cellIdx_div _ _ hq1 hq2, cellIdx_mod _ _ hq1 hq2]] at hb
    unfold betterCell at hb
    rcases hb with hb | ⟨-, hb⟩ <;> rw [hrem] at * <;> omega

/-- Selection returns `None` exactly when no empty cell remains (for domain
tables where every domain has at most 9 values, which holds throughout the
search by `domsOK`). -/
theorem select_none_iff (s : KState)
    (hlen : ∀ r, r < 9 → ∀ c, c < 9 → s.board r c = 0 → (s.domains r c).length ≤ 9) :
    select_unassigned_variable s = none ↔
      ∀ r, r < 9 → ∀ c, c < 9 → s.board r c ≠ 0 := by
  constructor
  · intro h r hr c hc hrc
    obtain ⟨-, -, hbig⟩ := (selScan_inv s 81).1 h
    have hj : 9 * r + c < 81 := by omega
    have h11 := hbig (9 * r + c) hj
      (by rw [cellIdx_div _ _ hr hc, cellIdx_mod _ _ hr hc]; exact hrc)
    rw [cellIdx_div _ _ hr hc, cellIdx_mod _ _ hr hc] at h11
    have := hlen r hr c hc hrc
    omega
  · intro h
    rcases Option.eq_none_or_eq_some (select_unassigned_variable s) with hn | ⟨p, hp⟩
    · exact hn
    · obtain ⟨h1, h2, h3, -, -⟩ := select_some_spec s p hp
      exact absurd h3 (h p.1 h1 p.2 h2)

/-! ### Frame: `solve` restores the board on failure -/

theorem upd2_upd2 {α : Type} (f : Nat → Nat → α) (r c : Nat) (v w : α) :
    upd2 (upd2 f r c v) r c w = upd2 f r c w := by
  funext r' c'
  by_cases h : r' = r ∧ c' = c <;> simp [upd2, h]

theorem upd2_eq_self {α : Type} (f : Nat → Nat → α) (r c : Nat) {w : α}
    (h : f r c = w) : upd2 f r c w = f := by
  funext r' c'
  by_cases h' : r' = r ∧ c' = c
  · rw [upd2, if_pos h', h'.1, h'.2, h]
  · rw [upd2, if_neg h']

theorem solveLoop_frame (hdots vdots : Nat → Nat → Nat) (recur : KState → Bool × KState)
    (row col : Nat)
    (hrec : ∀ t, (recur t).1 = false → ((recur t).2).board = t.board) :
    ∀ (nums : List Nat) (s : KState), s.board row col = 0 →
      (solveLoop hdots vdots recur row col s nums).1 = false →
      ((solveLoop hdots vdots recur row col s nums).2).board = s.board := by
  intro nums
  induction nums with
  | nil => intro s _ _; rfl
  | cons num rest ih =>
      intro s hs0 hfail
      rw [solveLoop] at hfail ⊢
      by_cases hvalid : is_valid_assignment hdots vdots s.board row col num = true
      · rw [if_pos hvalid] at hfail ⊢
        dsimp only at hfail ⊢
        set fc := forward_check hdots vdots ⟨upd2 s.board row col num, s.domains⟩ row col num
          with hfcdef
        have hfcb : (fc.2).board = upd2 s.board row col num := by
          rw [hfcdef]; exact forward_check_board _ _ _ _ _ _
        by_cases hfc : fc.1 = true
        · rw [if_pos hfc] at hfail ⊢
          by_cases hr2 : (recur fc.2).1 = true
          · rw [if_pos hr2] at hfail ⊢
            simp [hr2] at hfail
          · rw [if_neg hr2] at hfail ⊢
            have hrb := hrec fc.2 (Bool.eq_false_iff.mpr hr2)
            have ht' : ((restore_domains hdots vdots
                ⟨upd2 ((recur fc.2).2).board row col 0, ((recur fc.2).2).domains⟩
                row col)).board = s.board := by
              rw [restore_domains_board]
              dsimp only
              rw [hrb, hfcb, upd2_upd2, upd2_eq_self _ _ _ hs0]
            rw [ih _ (by rw [ht']; exact hs0) hfail, ht']
        · rw [if_neg hfc] at hfail ⊢
          have ht' : ((restore_domains hdots vdots
              ⟨upd2 (fc.2).board row col 0, (fc.2).domains⟩ row col)).board = s.board := by
            rw [restore_domains_board]
            dsimp only
            rw [hfcb, upd2_upd2, upd2_eq_self _ _ _ hs0]
          rw [ih _ (by rw [ht']; exact hs0) hfail, ht']
      · rw [if_neg hvalid] at hfail ⊢
        exact ih _ hs0 hfail

theorem solve_frame (hdots vdots : Nat → Nat → Nat) :
    ∀ (fuel : Nat) (s : KState), (solve hdots vdots fuel s).1 = false →
      ((solve hdots vdots fuel s).2).board = s.board := by
  intro fuel
  induction fuel with
  | zero => intro s _; rfl
  | succ fuel ih =>
      intro s hfail
      rw [solve] at hfail ⊢
      cases hsel : select_unassigned_variable s with
      | none => rfl
      | some p =>
          obtain ⟨row, col⟩ := p
          rw [hsel] at hfail
          dsimp only at hfail ⊢
          obtain ⟨-, -, hs0, -, -⟩ := select_some_spec s (row, col) hsel
          exact solveLoop_frame hdots vdots _ row col (fun t => ih t) _ s hs0 hfail

/-! ### Properties of `is_valid_assignment` -/

/-- Cells in the same row, column or 3×3 block (the test used by
`count_constraints`, and the set of cells `is_valid_assignment` compares
against). -/
def sameUnit (r c r' c' : Nat) : Prop :=
  r = r' ∨ c = c' ∨ (r / 3 = r' / 3 ∧ c / 3 = c' / 3)

theorem sameUnit_symm {r c r' c' : Nat} (h : sameUnit r c r' c') : sameUnit r' c' r c := by
  unfold sameUnit at *
  tauto

/-- The relation a dot value imposes on the two cell values it connects
(white `1`: difference exactly one; black `2`: one value is double the
other; any other dot value imposes nothing). -/
def dotRel (dot a b : Nat) : Prop :=
  (dot = 1 → absDiff a b = 1) ∧ (dot = 2 → a = 2 * b ∨ b = 2 * a)

theorem absDiff_comm (a b : Nat) : absDiff a b = absDiff b a := by
  unfold absDiff
  rw [← Int.natAbs_neg, neg_sub]

theorem dotRel_symm {dot a b : Nat} (h : dotRel dot a b) : dotRel dot b a := by
  obtain ⟨h1, h2⟩ := h
  exact ⟨fun hd => by rw [absDiff_comm]; exact h1 hd, fun hd => (h2 hd).symm⟩

theorem dotFail_zero (dot num : Nat) : dotFail dot num 0 = false := rfl

theorem dotFail_eq_false_iff {dot num other : Nat} :
    dotFail dot num other = false ↔ (other ≠ 0 → dotRel dot num other) := by
  unfold dotFail dotRel
  by_cases ho : other = 0
  · subst ho
    simp
  · rw [if_pos (by simpa using ho)]
    constructor
    · intro h _
      constructor
      · intro h1
        subst h1
        by_cases ha : absDiff num other = 1
        · exact ha
        · exfalso
          revert h
          simp [ha]
      · intro h2
        subst h2
        by_cases hb : num = 2 * other
        · exact Or.inl hb
        · by_cases hc : other = 2 * num
          · exact Or.inr hc
          · exfalso
            revert h
            simp [hb, hc]
    · intro h
      obtain ⟨h1, h2⟩ := h ho
      split
      · rename_i hx
        simp only [Bool.and_eq_true, beq_iff_eq, bne_iff_ne, ne_eq] at hx
        exact absurd (h1 hx.1) hx.2
      · split
        · rename_i hx
          simp only [Bool.and_eq_true, beq_iff_eq, bne_iff_ne, ne_eq] at hx
          rcases h2 hx.1.1 with hh | hh
          · exact absurd hh hx.1.2
          · exact absurd hh hx.2
        · rfl

theorem notAny_range9_iff {f : Nat → Nat} {num : Nat} :
    (!((List.range 9).any fun j => f j == num)) = true ↔ ∀ j, j < 9 → f j ≠ num := by
  simp

theorem notAny_list_iff {α : Type} {l : List α} {g : α → Nat} {num : Nat} :
    (!(l.any fun p => g p == num)) = true ↔ ∀ p ∈ l, g p ≠ num := by
  simp

theorem guard_iff (cond : Prop) [inst : Decidable cond] (d : Nat) (fail : Bool) :
    (!(decide cond && d != 0 && fail)) = true ↔ (cond → d ≠ 0 → fail = false) := by
  by_cases hc : cond <;> by_cases hd : d = 0 <;> cases fail <;> simp [hc, hd]

/-- `is_valid_assignment` unfolded into its seven propositional components. -/
theorem is_valid_iff {hdots vdots b : Nat → Nat → Nat} {row col num : Nat} :
    is_valid_assignment hdots vdots b row col num = true ↔
      (∀ j, j < 9 → b row j ≠ num) ∧
      (∀ i, i < 9 → b i col ≠ num) ∧
      (∀ p ∈ blockCells row col, b p.1 p.2 ≠ num) ∧
      (col < 8 → hdots row col ≠ 0 → dotFail (hdots row col) num (b row (col + 1)) = false) ∧
      (0 < col → hdots row (col - 1) ≠ 0 →
        dotFail (hdots row (col - 1)) num (b row (col - 1)) = false) ∧
      (row < 8 → vdots row col ≠ 0 → dotFail (vdots row col) num (b (row + 1) col) = false) ∧
      (0 < row → vdots (row - 1) col ≠ 0 →
        dotFail (vdots (row - 1) col) num (b (row - 1) col) = false) := by
  unfold is_valid_assignment
  rw [Bool.and_eq_true, Bool.and_eq_true, Bool.and_eq_true, Bool.and_eq_true,
    Bool.and_eq_true, Bool.and_eq_true,
    notAny_range9_iff, notAny_range9_iff, notAny_list_iff,
    guard_iff, guard_iff, guard_iff, guard_iff]
  tauto

theorem mem_blockCells_of_sameBlock {row col r' c' : Nat}
    (h1 : r' / 3 = row / 3) (h2 : c' / 3 = col / 3) : (r', c') ∈ blockCells row col := by
  rw [mem_blockCells]
  exact ⟨r' % 3, by omega, c' % 3, by omega, by rw [Prod.mk.injEq]; omega⟩

theorem blockCells_mem_bounds {row col : Nat} {p : Nat × Nat}
    (hp : p ∈ blockCells row col) (hrow : row < 9) (hcol : col < 9) :
    p.1 < 9 ∧ p.2 < 9 := by
  rw [mem_blockCells] at hp
  obtain ⟨dr, hdr, dc, hdc, hpe⟩ := hp
  rw [hpe]
  constructor <;> (dsimp only; omega)

theorem blockCells_mem_sameUnit {row col : Nat} {p : Nat × Nat}
    (hp : p ∈ blockCells row col) : sameUnit row col p.1 p.2 := by
  rw [mem_blockCells] at hp
  obtain ⟨dr, hdr, dc, hdc, hpe⟩ := hp
  rw [hpe]
  right; right
  constructor <;> (dsimp only; omega)

/-- A valid assignment of `num` differs from every filled cell in the same
row, column or block. -/
theorem valid_excludes {hdots vdots b : Nat → Nat → Nat} {row col num r' c' : Nat}
    (hv : is_valid_assignment hdots vdots b row col num = true)
    (hr' : r' < 9) (hc' : c' < 9) (hu : sameUnit row col r' c') : b r' c' ≠ num := by
  rw [is_valid_iff] at hv
  obtain ⟨h1, h2, h3, -, -, -, -⟩ := hv
  rcases hu with hu | hu | ⟨hu1, hu2⟩
  · rw [← hu]
    exact h1 c' hc'
  · rw [← hu]
    exact h2 r' hr'
  · exact h3 (r', c') (mem_blockCells_of_sameBlock hu1.symm hu2.symm)

/-- Adding assignments only makes validity harder: if `num ≥ 1` is valid on
an extension `b2` of `b`, it was valid on `b`. -/
theorem valid_antitone {hdots vdots b b2 : Nat → Nat → Nat} {row col num : Nat}
    (hext : ∀ i j, i < 9 → j < 9 → b i j ≠ 0 → b2 i j = b i j)
    (hnum : 1 ≤ num) (hrow : row < 9) (hcol : col < 9)
    (hv : is_valid_assignment hdots vdots b2 row col num = true) :
    is_valid_assignment hdots vdots b row col num = true := by
  rw [is_valid_iff] at hv ⊢
  obtain ⟨h1, h2, h3, h4, h5, h6, h7⟩ := hv
  refine ⟨?_, ?_, ?_, ?_, ?_, ?_, ?_⟩
  · intro j hj he
    exact h1 j hj (by rw [← he] at hnum ⊢; exact hext row j hrow hj (by omega))
  · intro i hi he
    exact h2 i hi (by rw [← he] at hnum ⊢; exact hext i col hi hcol (by omega))
  · intro p hp he
    obtain ⟨hp1, hp2⟩ := blockCells_mem_bounds hp hrow hcol
    exact h3 p hp (by rw [← he] at hnum ⊢; exact hext p.1 p.2 hp1 hp2 (by omega))
  · intro hc hd
    by_cases hz : b row (col + 1) = 0
    · rw [hz, dotFail_zero]
    · rw [← hext row (col + 1) hrow (by omega) hz]
      exact h4 hc hd
  · intro hc hd
    by_cases hz : b row (col - 1) = 0
    · rw [hz, dotFail_zero]
    · rw [← hext row (col - 1) hrow (by omega) hz]
      exact h5 hc hd
  · intro hc hd
    by_cases hz : b (row + 1) col = 0
    · rw [hz, dotFail_zero]
    · rw [← hext (row + 1) col (by omega) hcol hz]
      exact h6 hc hd
  · intro hc hd
    by_cases hz : b (row - 1) col = 0
    · rw [hz, dotFail_zero]
    · rw [← hext (row - 1) col (by omega) hcol hz]
      exact h7 hc hd

/-- Legality at `(row, col)` only reads board cells in the same row, column
or block (the four dot neighbors all share the row or the column). -/
theorem valid_congr_unit_mp {hdots vdots b b2 : Nat → Nat → Nat} {row col num : Nat}
    (hrow : row < 9) (hcol : col < 9)
    (hag : ∀ i j, i < 9 → j < 9 → sameUnit row col i j → b2 i j = b i j)
    (hv : is_valid_assignment hdots vdots b row col num = true) :
    is_valid_assignment hdots vdots b2 row col num = true := by
  rw [is_valid_iff] at hv ⊢
  obtain ⟨h1, h2, h3, h4, h5, h6, h7⟩ := hv
  refine ⟨?_, ?_, ?_, ?_, ?_, ?_, ?_⟩
  · intro j hj
    rw [hag row j hrow hj (Or.inl rfl)]
    exact h1 j hj
  · intro i hi
    rw [hag i col hi hcol (Or.inr (Or.inl rfl))]
    exact h2 i hi
  · intro p hp
    obtain ⟨hp1, hp2⟩ := blockCells_mem_bounds hp hrow hcol
    rw [hag p.1 p.2 hp1 hp2 (blockCells_mem_sameUnit hp)]
    exact h3 p hp
  · intro hc hd
    rw [hag row (col + 1) hrow (by omega) (Or.inl rfl)]
    exact h4 hc hd
  · intro hc hd
    rw [hag row (col - 1) hrow (by omega) (Or.inl rfl)]
    exact h5 hc hd
  · intro hc hd
    rw [hag (row + 1) col (by omega) hcol (Or.inr (Or.inl rfl))]
    exact h6 hc hd
  · intro hc hd
    rw [hag (row - 1) col (by omega) hcol (Or.inr (Or.inl rfl))]
    exact h7 hc hd

theorem valid_congr_unit {hdots vdots b b2 : Nat → Nat → Nat} {row col num : Nat}
    (hrow : row < 9) (hcol : col < 9)
    (hag : ∀ i j, i < 9 → j < 9 → sameUnit row col i j → b2 i j = b i j) :
    (is_valid_assignment hdots vdots b row col num = true ↔
      is_valid_assignment hdots vdots b2 row col num = true) :=
  ⟨valid_congr_unit_mp hrow hcol hag,
   valid_congr_unit_mp hrow hcol (fun i j hi hj hu => (hag i j hi hj hu).symm)⟩

/-! ### Soundness of a successful `solve` -/

/-- What a successful search establishes, relating the board `b` at entry to
the final board `b'`: prefilled cells persist, the final board is complete
with search-assigned values in 1..9, two same-unit cells can only agree if
both were prefilled, a markered adjacent pair satisfies its dot relation
unless both cells were prefilled, and every search-assigned value was a
valid assignment already with respect to the entry board. -/
structure SolveSound (hdots vdots : Nat → Nat → Nat) (b b' : Nat → Nat → Nat) : Prop where
  preserves : ∀ r c, b r c ≠ 0 → b' r c = b r c
  complete : ∀ r c, r < 9 → c < 9 → b' r c ≠ 0
  vals : ∀ r c, r < 9 → c < 9 → b r c = 0 → 1 ≤ b' r c ∧ b' r c ≤ 9
  uniq : ∀ r c r' c', r < 9 → c < 9 → r' < 9 → c' < 9 → sameUnit r c r' c' →
    (r, c) ≠ (r', c') → (b r c ≠ 0 ∧ b r' c' ≠ 0) ∨ b' r c ≠ b' r' c'
  dotsH : ∀ r c, r < 9 → c < 8 → hdots r c ≠ 0 →
    (b r c ≠ 0 ∧ b r (c + 1) ≠ 0) ∨ dotRel (hdots r c) (b' r c) (b' r (c + 1))
  dotsV : ∀ r c, r < 8 → c < 9 → vdots r c ≠ 0 →
    (b r c ≠ 0 ∧ b (r + 1) c ≠ 0) ∨ dotRel (vdots r c) (b' r c) (b' (r + 1) c)
  initValid : ∀ r c, r < 9 → c < 9 → b r c = 0 →
    is_valid_assignment hdots vdots b r c (b' r c) = true

/-- Base case: a board with no empty cell is sound with respect to itself. -/
theorem SolveSound_refl (hdots vdots b : Nat → Nat → Nat)
    (hcomp : ∀ r c, r < 9 → c < 9 → b r c ≠ 0) : SolveSound hdots vdots b b where
  preserves := fun _ _ _ => rfl
  complete := hcomp
  vals := fun r c hr hc h0 => absurd h0 (hcomp r c hr hc)
  uniq := fun r c r' c' hr hc hr' hc' _ _ => Or.inl ⟨hcomp r c hr hc, hcomp r' c' hr' hc'⟩
  dotsH := fun r c hr hc _ =>
    Or.inl ⟨hcomp r c hr (by omega), hcomp r (c + 1) hr (by omega)⟩
  dotsV := fun r c hr hc _ =>
    Or.inl ⟨hcomp r c (by omega) hc, hcomp (r + 1) c (by omega) hc⟩
  initValid := fun r c hr hc h0 => absurd h0 (hcomp r c hr hc)

/-- Composition step: if the board after validly assigning `num` at
`(row, col)` searches out soundly to `b'`, then the entry board does too. -/
theorem SolveSound_step {hdots vdots b b' : Nat → Nat → Nat} {row col num : Nat}
    (hrow : row < 9) (hcol : col < 9) (hb0 : b row col = 0)
    (hn1 : 1 ≤ num) (hn9 : num ≤ 9)
    (hvalid : is_valid_assignment hdots vdots b row col num = true)
    (hS : SolveSound hdots vdots (upd2 b row col num) b') :
    SolveSound hdots vdots b b' := by
  have hb2self : upd2 b row col num row col = num := upd2_self b row col num
  have hchg : ∀ r c, b r c ≠ 0 → upd2 b row col num r c = b r c := by
    intro r c h
    by_cases hq : r = row ∧ c = col
    · rw [hq.1, hq.2] at h
      exact absurd hb0 h
    · exact upd2_ne b row col num hq
  have hzero : ∀ r c, ¬(r = row ∧ c = col) → b r c = 0 → upd2 b row col num r c = 0 := by
    intro r c hq h
    rw [upd2_ne b row col num hq, h]
  have hpres : ∀ r c, b r c ≠ 0 → b' r c = b r c := by
    intro r c h
    rw [hS.preserves r c (by rw [hchg r c h]; exact h), hchg r c h]
  have hsel : b' row col = num := by
    rw [hS.preserves row col (by rw [hb2self]; omega), hb2self]
  have hvals : ∀ r c, r < 9 → c < 9 → b r c = 0 → 1 ≤ b' r c ∧ b' r c ≤ 9 := by
    intro r c hr hc h0
    by_cases hq : r = row ∧ c = col
    · rw [hq.1, hq.2, hsel]
      exact ⟨hn1, hn9⟩
    · exact hS.vals r c hr hc (hzero r c hq h0)
  refine ⟨hpres, hS.complete, hvals, ?_, ?_, ?_, ?_⟩
  · -- uniq
    intro r c r' c' hr hc hr' hc' hu hne
    by_cases hz1 : b r c ≠ 0
    · by_cases hz2 : b r' c' ≠ 0
      · exact Or.inl ⟨hz1, hz2⟩
      · -- second cell empty in b
        push_neg at hz2
        rcases hS.uniq r c r' c' hr hc hr' hc' hu hne with ⟨h2a, h2b⟩ | hne'
        · -- both filled after the assignment: the second cell must be (row, col)
          by_cases hq2 : r' = row ∧ c' = col
          · right
            rw [hq2.1, hq2.2, hsel, hpres r c hz1]
            have := valid_excludes hvalid hr hc
              (sameUnit_symm (hq2.1 ▸ hq2.2 ▸ hu))
            exact this
          · exact absurd (hzero r' c' hq2 hz2) h2b
        · exact Or.inr hne'
    · push_neg at hz1
      rcases hS.uniq r c r' c' hr hc hr' hc' hu hne with ⟨h2a, h2b⟩ | hne'
      · -- first cell empty in b but filled after the assignment: it is (row, col)
        by_cases hq1 : r = row ∧ c = col
        · right
          rw [hq1.1, hq1.2, hsel]
          by_cases hz2 : b r' c' = 0
          · -- the other cell would also be (row, col), impossible
            by_cases hq2 : r' = row ∧ c' = col
            · exact absurd (Prod.ext (hq1.1.trans hq2.1.symm) (hq1.2.trans hq2.2.symm)) hne
            · exact absurd (hzero r' c' hq2 hz2) h2b
          · rw [hpres r' c' hz2]
            exact fun hh => (valid_excludes hvalid hr' hc'
              (hq1.1 ▸ hq1.2 ▸ hu) ) hh.symm
        · exact absurd (hzero r c hq1 hz1) h2a
      · exact Or.inr hne'
  · -- dotsH
    intro r c hr hc8 hd
    by_cases hz1 : b r c ≠ 0
    · by_cases hz2 : b r (c + 1) ≠ 0
      · exact Or.inl ⟨hz1, hz2⟩
      · push_neg at hz2
        rcases hS.dotsH r c hr hc8 hd with ⟨h2a, h2b⟩ | hrel
        · -- right cell was just assigned: it is (row, col)
          by_cases hq2 : r = row ∧ c + 1 = col
          · obtain ⟨rfl, hcc⟩ := hq2
            subst hcc
            right
            rw [is_valid_iff] at hvalid
            have h5 := hvalid.2.2.2.2.1
            simp only [Nat.add_sub_cancel] at h5
            have := (dotFail_eq_false_iff.mp (h5 (by omega) hd)) hz1
            rw [hpres r c hz1, hsel]
            exact dotRel_symm this
          · exact absurd (hzero r (c + 1) hq2 hz2) h2b
        · exact Or.inr hrel
    · push_neg at hz1
      rcases hS.dotsH r c hr hc8 hd with ⟨h2a, h2b⟩ | hrel
      · by_cases hq1 : r = row ∧ c = col
        · obtain ⟨rfl, rfl⟩ := hq1
          right
          by_cases hz2 : b r (c + 1) = 0
          · by_cases hq2 : r = r ∧ c + 1 = c
            · omega
            · exact absurd (hzero r (c + 1) hq2 hz2) h2b
          · rw [is_valid_iff] at hvalid
            have h4 := hvalid.2.2.2.1
            have := (dotFail_eq_false_iff.mp (h4 hc8 hd)) hz2
            rw [hpres r (c + 1) hz2, hsel]
            exact this
        · exact absurd (hzero r c hq1 hz1) h2a
      · exact Or.inr hrel
  · -- dotsV
    intro r c hr8 hc hd
    by_cases hz1 : b r c ≠ 0
    · by_cases hz2 : b (r + 1) c ≠ 0
      · exact Or.inl ⟨hz1, hz2⟩
      · push_neg at hz2
        rcases hS.dotsV r c hr8 hc hd with ⟨h2a, h2b⟩ | hrel
        · by_cases hq2 : r + 1 = row ∧ c = col
          · obtain ⟨hrr, rfl⟩ := hq2
            subst hrr
            right
            rw [is_valid_iff] at hvalid
            have h7 := hvalid.2.2.2.2.2.2
            simp only [Nat.add_sub_cancel] at h7
            have := (dotFail_eq_false_iff.mp (h7 (by omega) hd)) hz1
            rw [hpres r c hz1, hsel]
            exact dotRel_symm this
          · exact absurd (hzero (r + 1) c hq2 hz2) h2b
        · exact Or.inr hrel
    · push_neg at hz1
      rcases hS.dotsV r c hr8 hc hd with ⟨h2a, h2b⟩ | hrel
      · by_cases hq1 : r = row ∧ c = col
        · obtain ⟨rfl, rfl⟩ := hq1
          right
          by_cases hz2 : b (r + 1) c = 0
          · by_cases hq2 : r + 1 = r ∧ c = c
            · omega
            · exact absurd (hzero (r + 1) c hq2 hz2) h2b
          · rw [is_valid_iff] at hvalid
            have h6 := hvalid.2.2.2.2.2.1
            have := (dotFail_eq_false_iff.mp (h6 hr8 hd)) hz2
            rw [hpres (r + 1) c hz2, hsel]
            exact this
        · exact absurd (hzero r c hq1 hz1) h2a
      · exact Or.inr hrel
  · -- initValid
    intro r c hr hc h0
    by_cases hq : r = row ∧ c = col
    · rw [hq.1, hq.2, hsel]
      exact hvalid
    · have h20 := hzero r c hq h0
      have hvb2 := hS.initValid r c hr hc h20
      have hb1 : 1 ≤ b' r c := (hS.vals r c hr hc h20).1
      exact valid_antitone (fun i j _ _ hij => hchg i j hij) hb1 hr hc hvb2

theorem solveLoop_sound (hdots vdots : Nat → Nat → Nat) (recur : KState → Bool × KState)
    (row col : Nat)
    (hrecS : ∀ t, domsOK t.domains → (recur t).1 = true →
      SolveSound hdots vdots t.board ((recur t).2).board)
    (hrecF : ∀ t, (recur t).1 = false → ((recur t).2).board = t.board)
    (hrecD : ∀ t, domsOK t.domains → domsOK ((recur t).2).domains) :
    ∀ (nums : List Nat) (s : KState), domsOK s.domains →
      (∀ v ∈ nums, 1 ≤ v ∧ v ≤ 9) → row < 9 → col < 9 → s.board row col = 0 →
      (solveLoop hdots vdots recur row col s nums).1 = true →
      SolveSound hdots vdots s.board
        ((solveLoop hdots vdots recur row col s nums).2).board := by
  intro nums
  induction nums with
  | nil =>
      intro s _ _ _ _ _ hsucc
      exact absurd hsucc (by simp [solveLoop])
  | cons num rest ih =>
      intro s hdom hmem hrow hcol hb0 hsucc
      have hn1 : 1 ≤ num := (hmem num (List.mem_cons_self _ _)).1
      have hn9 : num ≤ 9 := (hmem num (List.mem_cons_self _ _)).2
      have hmem' : ∀ v ∈ rest, 1 ≤ v ∧ v ≤ 9 :=
        fun v hv => hmem v (List.mem_cons_of_mem _ hv)
      rw [solveLoop] at hsucc ⊢
      by_cases hvalid : is_valid_assignment hdots vdots s.board row col num = true
      · rw [if_pos hvalid] at hsucc ⊢
        dsimp only at hsucc ⊢
        set fc := forward_check hdots vdots ⟨upd2 s.board row col num, s.domains⟩ row col num
          with hfcdef
        have hfcb : (fc.2).board = upd2 s.board row col num := by
          rw [hfcdef]; exact forward_check_board _ _ _ _ _ _
        have hfcd : domsOK (fc.2).domains := by
          rw [hfcdef]
          exact forward_check_domsOK _ _ _ _ _ _ hdom
        by_cases hfc : fc.1 = true
        · rw [if_pos hfc] at hsucc ⊢
          by_cases hr2 : (recur fc.2).1 = true
          · rw [if_pos hr2] at hsucc ⊢
            have hS2 := hrecS fc.2 hfcd hr2
            rw [hfcb] at hS2
            exact SolveSound_step hrow hcol hb0 hn1 hn9 hvalid hS2
          · rw [if_neg hr2] at hsucc ⊢
            have hrb := hrecF fc.2 (Bool.eq_false_iff.mpr hr2)
            have ht' : ((restore_domains hdots vdots
                ⟨upd2 ((recur fc.2).2).board row col 0, ((recur fc.2).2).domains⟩
                row col)).board = s.board := by
              rw [restore_domains_board]
              dsimp only
              rw [hrb, hfcb, upd2_upd2, upd2_eq_self _ _ _ hb0]
            have ht'd : domsOK ((restore_domains hdots vdots
                ⟨upd2 ((recur fc.2).2).board row col 0, ((recur fc.2).2).domains⟩
                row col)).domains :=
              restore_domains_domsOK _ _ _ _ _ (hrecD fc.2 hfcd)
            have := ih _ ht'd hmem' hrow hcol (by rw [ht']; exact hb0) hsucc
            rw [ht'] at this
            exact this
        · rw [if_neg hfc] at hsucc ⊢
          have ht' : ((restore_domains hdots vdots
              ⟨upd2 (fc.2).board row col 0, (fc.2).domains⟩ row col)).board = s.board := by
            rw [restore_domains_board]
            dsimp only
            rw [hfcb, upd2_upd2, upd2_eq_self _ _ _ hb0]
          have ht'd : domsOK ((restore_domains hdots vdots
              ⟨upd2 (fc.2).board row col 0, (fc.2).domains⟩ row col)).domains :=
            restore_domains_domsOK _ _ _ _ _ hfcd
          have := ih _ ht'd hmem' hrow hcol (by rw [ht']; exact hb0) hsucc
          rw [ht'] at this
          exact this
      · rw [if_neg hvalid] at hsucc ⊢
        exact ih _ hdom hmem' hrow hcol hb0 hsucc

/-- Soundness of `solve`: a successful search, started from a state with
well-formed domains, produces a board standing in the `SolveSound` relation
to the entry board. -/
theorem solve_sound (hdots vdots : Nat → Nat → Nat) :
    ∀ (fuel : Nat) (s : KState), domsOK s.domains →
      (solve hdots vdots fuel s).1 = true →
      SolveSound hdots vdots s.board ((solve hdots vdots fuel s).2).board := by
  intro fuel
  induction fuel with
  | zero =>
      intro s _ hsucc
      exact absurd hsucc (by simp [solve])
  | succ fuel ih =>
      intro s hdom hsucc
      rw [solve] at hsucc ⊢
      cases hsel : select_unassigned_variable s with
      | none =>
          have hcomp := (select_none_iff s
            (fun r hr c hc _ => (hdom r hr c hc).2)).mp hsel
          dsimp only
          exact SolveSound_refl hdots vdots s.board (fun r c hr hc => hcomp r hr c hc)
      | some p =>
          obtain ⟨row, col⟩ := p
          rw [hsel] at hsucc
          dsimp only at hsucc ⊢
          obtain ⟨hrow, hcol, hb0, -, -⟩ := select_some_spec s (row, col) hsel
          refine solveLoop_sound hdots vdots _ row col
            (fun t ht hs => ih t ht hs) (fun t => solve_frame hdots vdots fuel t)
            (fun t ht => solve_domsOK hdots vdots fuel t ht)
            _ s hdom ?_ hrow hcol hb0 hsucc
          intro v hv
          rw [mem_sortAsc] at hv
          exact (hdom row hrow col hcol).1 v hv

/-! ### Grid validity: each unit holds exactly the digits 1..9 -/

instance sameUnit_decidable (r c r' c' : Nat) : Decidable (sameUnit r c r' c') := by
  unfold sameUnit
  infer_instance

instance dotRel_decidable (d a b : Nat) : Decidable (dotRel d a b) := by
  unfold dotRel
  infer_instance

/-- Nine values in 1..9, pairwise distinct, cover every digit 1..9. -/
theorem nine_inj_surj {f : Nat → Nat}
    (hrange : ∀ i, i < 9 → 1 ≤ f i ∧ f i ≤ 9)
    (hinj : ∀ i j, i < 9 → j < 9 → i ≠ j → f i ≠ f j) :
    ∀ v, 1 ≤ v → v ≤ 9 → ∃ i, i < 9 ∧ f i = v := by
  intro v hv1 hv9
  have hsurj := Finset.surj_on_of_inj_on_of_card_le
    (s := Finset.range 9) (t := Finset.Icc 1 9) (fun a _ => f a)
    (fun a ha => by
      rw [Finset.mem_Icc]
      exact hrange a (Finset.mem_range.mp ha))
    (fun a1 a2 ha1 ha2 he => by
      by_contra hne
      exact hinj a1 a2 (Finset.mem_range.mp ha1) (Finset.mem_range.mp ha2) hne he)
    (by simp [Nat.card_Icc])
  obtain ⟨a, ha, hav⟩ := hsurj v (by rw [Finset.mem_Icc]; exact ⟨hv1, hv9⟩)
  exact ⟨a, Finset.mem_range.mp ha, hav.symm⟩

/-- A unit of nine cell values holds exactly the set {1..9} with no repeats:
all values in 1..9, pairwise distinct, and every digit 1..9 occurs. -/
def unitExact (f : Nat → Nat) : Prop :=
  (∀ i, i < 9 → 1 ≤ f i ∧ f i ≤ 9) ∧
  (∀ i, i < 9 → ∀ j, j < 9 → i ≠ j → f i ≠ f j) ∧
  (∀ v, 1 ≤ v → v ≤ 9 → ∃ i, i < 9 ∧ f i = v)

/-- Every row, every column and every 3×3 block of `b` holds exactly the set
{1..9} with no repeats (cell `k` of block `(br, bc)` is
`(3*br + k/3, 3*bc + k%3)`). -/
def gridExact (b : Nat → Nat → Nat) : Prop :=
  (∀ r, r < 9 → unitExact (fun c => b r c)) ∧
  (∀ c, c < 9 → unitExact (fun r => b r c)) ∧
  (∀ br, br < 3 → ∀ bc, bc < 3 → unitExact (fun k => b (3 * br + k / 3) (3 * bc + k % 3)))

/-- All markered adjacent pairs of `b` satisfy their dot relations. -/
def dotsSatisfied (hdots vdots b : Nat → Nat → Nat) : Prop :=
  (∀ r, r < 9 → ∀ c, c < 8 → hdots r c ≠ 0 → dotRel (hdots r c) (b r c) (b r (c + 1))) ∧
  (∀ r, r < 8 → ∀ c, c < 9 → vdots r c ≠ 0 → dotRel (vdots r c) (b r c) (b (r + 1) c))

/-- All board values are at most 9 (the input format supplies cells 0..9). -/
def boardLe9 (b : Nat → Nat → Nat) : Prop :=
  ∀ r, r < 9 → ∀ c, c < 9 → b r c ≤ 9

/-- The pre-filled (nonzero) cells are mutually consistent with the
row/column/block uniqueness constraints. -/
def prefilledConsistent (b : Nat → Nat → Nat) : Prop :=
  ∀ r, r < 9 → ∀ c, c < 9 → ∀ r', r' < 9 → ∀ c', c' < 9 →
    sameUnit r c r' c' → (r, c) ≠ (r', c') → b r c ≠ 0 → b r' c' ≠ 0 → b r c ≠ b r' c'

/-- Every marker whose two cells are both pre-filled is satisfied by the
pre-filled values. -/
def prefilledDotsOK (hdots vdots b : Nat → Nat → Nat) : Prop :=
  (∀ r, r < 9 → ∀ c, c < 8 → hdots r c ≠ 0 → b r c ≠ 0 → b r (c + 1) ≠ 0 →
    dotRel (hdots r c) (b r c) (b r (c + 1))) ∧
  (∀ r, r < 8 → ∀ c, c < 9 → vdots r c ≠ 0 → b r c ≠ 0 → b (r + 1) c ≠ 0 →
    dotRel (vdots r c) (b r c) (b (r + 1) c))

theorem SolveSound_vals9 {hdots vdots b b' : Nat → Nat → Nat}
    (hS : SolveSound hdots vdots b b') (h9 : boardLe9 b) :
    ∀ r c, r < 9 → c < 9 → 1 ≤ b' r c ∧ b' r c ≤ 9 := by
  intro r c hr hc
  by_cases h0 : b r c = 0
  · exact hS.vals r c hr hc h0
  · rw [hS.preserves r c h0]
    exact ⟨by omega, h9 r hr c hc⟩

theorem SolveSound_allDistinct {hdots vdots b b' : Nat → Nat → Nat}
    (hS : SolveSound hdots vdots b b') (hpc : prefilledConsistent b) :
    ∀ r c r' c', r < 9 → c < 9 → r' < 9 → c' < 9 → sameUnit r c r' c' →
      (r, c) ≠ (r', c') → b' r c ≠ b' r' c' := by
  intro r c r' c' hr hc hr' hc' hu hne
  rcases hS.uniq r c r' c' hr hc hr' hc' hu hne with ⟨h1, h2⟩ | hne'
  · rw [hS.preserves r c h1, hS.preserves r' c' h2]
    exact hpc r hr c hc r' hr' c' hc' hu hne h1 h2
  · exact hne'

theorem SolveSound_gridExact {hdots vdots b b' : Nat → Nat → Nat}
    (hS : SolveSound hdots vdots b b') (h9 : boardLe9 b) (hpc : prefilledConsistent b) :
    gridExact b' := by
  have hvals := SolveSound_vals9 hS h9
  have hdist := SolveSound_allDistinct hS hpc
  refine ⟨?_, ?_, ?_⟩
  · intro r hr
    have hrange : ∀ i, i < 9 → 1 ≤ b' r i ∧ b' r i ≤ 9 := fun i hi => hvals r i hr hi
    have hinj : ∀ i j, i < 9 → j < 9 → i ≠ j → b' r i ≠ b' r j := by
      intro i j hi hj hne
      exact hdist r i r j hr hi hr hj (Or.inl rfl)
        (by rw [Ne, Prod.mk.injEq]; rintro ⟨-, h2⟩; exact hne h2)
    exact ⟨hrange, fun i hi j hj hne => hinj i j hi hj hne, nine_inj_surj hrange hinj⟩
  · intro c hc
    have hrange : ∀ i, i < 9 → 1 ≤ b' i c ∧ b' i c ≤ 9 := fun i hi => hvals i c hi hc
    have hinj : ∀ i j, i < 9 → j < 9 → i ≠ j → b' i c ≠ b' j c := by
      intro i j hi hj hne
      exact hdist i c j c hi hc hj hc (Or.inr (Or.inl rfl))
        (by rw [Ne, Prod.mk.injEq]; rintro ⟨h1, -⟩; exact hne h1)
    exact ⟨hrange, fun i hi j hj hne => hinj i j hi hj hne, nine_inj_surj hrange hinj⟩
  · intro br hbr bc hbc
    have hrange : ∀ k, k < 9 →
        1 ≤ b' (3 * br + k / 3) (3 * bc + k % 3) ∧
          b' (3 * br + k / 3) (3 * bc + k % 3) ≤ 9 := by
      intro k hk
      exact hvals _ _ (by omega) (by omega)
    have hinj : ∀ k k', k < 9 → k' < 9 → k ≠ k' →
        b' (3 * br + k / 3) (3 * bc + k % 3) ≠ b' (3 * br + k' / 3) (3 * bc + k' % 3) := by
      intro k k' hk hk' hne
      refine hdist _ _ _ _ (by omega) (by omega) (by omega) (by omega) ?_ ?_
      · right; right
        constructor <;> omega
      · rw [Ne, Prod.mk.injEq]
        rintro ⟨h1, h2⟩
        exact hne (by omega)
    exact ⟨hrange, fun i hi j hj hne => hinj i j hi hj hne, nine_inj_surj hrange hinj⟩

theorem SolveSound_dotsSatisfied {hdots vdots b b' : Nat → Nat → Nat}
    (hS : SolveSound hdots vdots b b') (hpd : prefilledDotsOK hdots vdots b) :
    dotsSatisfied hdots vdots b' := by
  constructor
  · intro r hr c hc hd
    rcases hS.dotsH r c hr hc hd with ⟨h1, h2⟩ | hrel
    · rw [hS.preserves r c h1, hS.preserves r (c + 1) h2]
      exact hpd.1 r hr c hc hd h1 h2
    · exact hrel
  · intro r hr c hc hd
    rcases hS.dotsV r c hr hc hd with ⟨h1, h2⟩ | hrel
    · rw [hS.preserves r c h1, hS.preserves (r + 1) c h2]
      exact hpd.2 r hr c hc hd h1 h2
    · exact hrel

instance boardLe9_decidable (b : Nat → Nat → Nat) : Decidable (boardLe9 b) := by
  unfold boardLe9
  infer_instance

instance prefilledConsistent_decidable (b : Nat → Nat → Nat) :
    Decidable (prefilledConsistent b) := by
  unfold prefilledConsistent
  exact @Nat.decidableBallLT 9 _ (fun r hr =>
    @Nat.decidableBallLT 9 _ (fun c hc =>
      @Nat.decidableBallLT 9 _ (fun r' hr' =>
        @Nat.decidableBallLT 9 _ (fun c' hc' => inferInstance))))

instance prefilledDotsOK_decidable (hdots vdots b : Nat → Nat → Nat) :
    Decidable (prefilledDotsOK hdots vdots b) := by
  unfold prefilledDotsOK
  exact @instDecidableAnd _ _
    (@Nat.decidableBallLT 9 _ (fun r hr =>
      @Nat.decidableBallLT 8 _ (fun c hc => inferInstance)))
    (@Nat.decidableBallLT 8 _ (fun r hr =>
      @Nat.decidableBallLT 9 _ (fun c hc => inferInstance)))

instance dotsSatisfied_decidable (hdots vdots b : Nat → Nat → Nat) :
    Decidable (dotsSatisfied hdots vdots b) := by
  unfold dotsSatisfied
  exact @instDecidableAnd _ _
    (@Nat.decidableBallLT 9 _ (fun r hr =>
      @Nat.decidableBallLT 8 _ (fun c hc => inferInstance)))
    (@Nat.decidableBallLT 8 _ (fun r hr =>
      @Nat.decidableBallLT 9 _ (fun c hc => inferInstance)))

/-! ### Concrete boards used as witnesses and counterexamples -/

set_option maxRecDepth 1000000

/-- A fully solved plain Sudoku grid. -/
def solvedRows : List (List Nat) :=
  [[1, 2, 3, 4, 5, 6, 7, 8, 9],
   [4, 5, 6, 7, 8, 9, 1, 2, 3],
   [7, 8, 9, 1, 2, 3, 4, 5, 6],
   [2, 3, 4, 5, 6, 7, 8, 9, 1],
   [5, 6, 7, 8, 9, 1, 2, 3, 4],
   [8, 9, 1, 2, 3, 4, 5, 6, 7],
   [3, 4, 5, 6, 7, 8, 9, 1, 2],
   [6, 7, 8, 9, 1, 2, 3, 4, 5],
   [9, 1, 2, 3, 4, 5, 6, 7, 8]]

/-- A board whose 81 cells all hold 5: wildly inconsistent pre-filled cells,
but no cell is empty. -/
def allFives : Nat → Nat → Nat := fun _ _ => 5

/-- A single black marker between cells (0,2) and (0,3). -/
def blackDotAt02 : Nat → Nat → Nat := fun r c => if r = 0 ∧ c = 2 then 2 else 0

/-- A board whose cell (0,0) is empty and admits no valid value: its row
holds 2..9 and its column holds 1. -/
def blockedRows : List (List Nat) :=
  [[0, 2, 3, 4, 5, 6, 7, 8, 9],
   [1, 0, 0, 0, 0, 0, 0, 0, 0],
   [0, 0, 0, 0, 0, 0, 0, 0, 0],
   [0, 0, 0, 0, 0, 0, 0, 0, 0],
   [0, 0, 0, 0, 0, 0, 0, 0, 0],
   [0, 0, 0, 0, 0, 0, 0, 0, 0],
   [0, 0, 0, 0, 0, 0, 0, 0, 0],
   [0, 0, 0, 0, 0, 0, 0, 0, 0],
   [0, 0, 0, 0, 0, 0, 0, 0, 0]]

/-! ### Claim C1 -/

/-- C1 (amended): for a board whose values are 0..9 and whose pre-filled
cells are mutually consistent with the uniqueness constraints, if `solve`
returns success then in the resulting grid every row, column and 3×3 block
contains exactly the set {1..9} with no repeats. -/
theorem C1_solved_grid_exact (hdots vdots b : Nat → Nat → Nat) (fuel : Nat)
    (h9 : boardLe9 b) (hpc : prefilledConsistent b)
    (hsucc : (solve hdots vdots fuel (mkState b)).1 = true) :
    gridExact ((solve hdots vdots fuel (mkState b)).2).board :=
  SolveSound_gridExact (solve_sound hdots vdots fuel (mkState b) (domsOK_init b) hsucc)
    h9 hpc

/-- C1 as literally stated is false: on the all-fives input board (all cells
pre-filled, values in 0..9) `solve` immediately returns success, yet the
resulting grid repeats 5 within row 0. -/
theorem C1_counterexample :
    (solve zeroDots zeroDots 1 (mkState allFives)).1 = true ∧
    ¬ gridExact ((solve zeroDots zeroDots 1 (mkState allFives)).2).board := by
  refine ⟨by decide, ?_⟩
  intro hg
  have h00 : ((solve zeroDots zeroDots 1 (mkState allFives)).2).board 0 0 = 5 := by decide
  have h01 : ((solve zeroDots zeroDots 1 (mkState allFives)).2).board 0 1 = 5 := by decide
  have hne := (hg.1 0 (by omega)).2.1 0 (by omega) 1 (by omega) (by omega)
  dsimp only at hne
  rw [h00, h01] at hne
  exact hne rfl

/-- Witness for `C1_solved_grid_exact` at a concrete input: the fully
pre-filled valid grid, which `solve` accepts immediately. -/
theorem C1_solved_grid_exact_witness :
    boardLe9 (boardOfRows solvedRows) ∧
    prefilledConsistent (boardOfRows solvedRows) ∧
    (solve zeroDots zeroDots 1 (mkState (boardOfRows solvedRows))).1 = true ∧
    gridExact ((solve zeroDots zeroDots 1 (mkState (boardOfRows solvedRows))).2).board :=
  ⟨by decide, by decide, by decide,
   C1_solved_grid_exact zeroDots zeroDots (boardOfRows solvedRows) 1
     (by decide) (by decide) (by decide)⟩

/-! ### Claim C2 -/

/-- A single black marker between cells (0,0) and (0,1). -/
def blackDotAt00 : Nat → Nat → Nat := fun r c => if r = 0 ∧ c = 0 then 2 else 0

/-- C2 (amended): if every marker between two pre-filled cells is satisfied
by the input board, then whenever `solve` returns success every markered
adjacent pair in the solved grid satisfies its relation (White: differ by
exactly 1, Black: one value is double the other). -/
theorem C2_solved_dots_satisfied (hdots vdots b : Nat → Nat → Nat) (fuel : Nat)
    (hpd : prefilledDotsOK hdots vdots b)
    (hsucc : (solve hdots vdots fuel (mkState b)).1 = true) :
    dotsSatisfied hdots vdots ((solve hdots vdots fuel (mkState b)).2).board :=
  SolveSound_dotsSatisfied (solve_sound hdots vdots fuel (mkState b) (domsOK_init b) hsucc)
    hpd

/-- C2 as literally stated is false for pairs where both cells were
pre-filled: with the fully pre-filled valid grid and a black marker between
the pre-filled cells (0,2)=3 and (0,3)=4, `solve` returns success but the
black relation fails on that pair. -/
theorem C2_counterexample :
    (solve blackDotAt02 zeroDots 1 (mkState (boardOfRows solvedRows))).1 = true ∧
    blackDotAt02 0 2 = 2 ∧
    boardOfRows solvedRows 0 2 ≠ 0 ∧
    boardOfRows solvedRows 0 3 ≠ 0 ∧
    ¬ dotRel (blackDotAt02 0 2)
      (((solve blackDotAt02 zeroDots 1 (mkState (boardOfRows solvedRows))).2).board 0 2)
      (((solve blackDotAt02 zeroDots 1 (mkState (boardOfRows solvedRows))).2).board 0 3) :=
  ⟨by decide, by decide, by decide, by decide, by decide⟩

/-- Witness for `C2_solved_dots_satisfied` at a concrete input: the solved
grid with a black marker between (0,0)=1 and (0,1)=2, which is satisfied. -/
theorem C2_solved_dots_satisfied_witness :
    prefilledDotsOK blackDotAt00 zeroDots (boardOfRows solvedRows) ∧
    (solve blackDotAt00 zeroDots 1 (mkState (boardOfRows solvedRows))).1 = true ∧
    dotsSatisfied blackDotAt00 zeroDots
      ((solve blackDotAt00 zeroDots 1 (mkState (boardOfRows solvedRows))).2).board :=
  ⟨by decide, by decide,
   C2_solved_dots_satisfied blackDotAt00 zeroDots (boardOfRows solvedRows) 1
     (by decide) (by decide)⟩

/-! ### Claim C3 -/

/-- C3 (amended, provable part): a starting board containing an empty cell
for which no value 1..9 is a valid assignment makes `solve` return failure
(`Unsatisfiable`), for every fuel. -/
theorem C3_blocked_cell_unsat (hdots vdots b : Nat → Nat → Nat) (fuel : Nat)
    (h : ∃ r, r < 9 ∧ ∃ c, c < 9 ∧ b r c = 0 ∧
      ∀ v, 1 ≤ v → v ≤ 9 → is_valid_assignment hdots vdots b r c v = false) :
    (solve hdots vdots fuel (mkState b)).1 = false := by
  obtain ⟨r, hr, c, hc, hb0, hinv⟩ := h
  cases hres : (solve hdots vdots fuel (mkState b)).1
  · rfl
  · exfalso
    have hS := solve_sound hdots vdots fuel (mkState b) (domsOK_init b) hres
    have hv := hS.initValid r c hr hc hb0
    have hvals := hS.vals r c hr hc hb0
    have hmb : (mkState b).board = b := rfl
    rw [hmb] at hv
    rw [hinv _ hvals.1 hvals.2] at hv
    exact absurd hv (by simp)

/-- C3 as literally stated is false: the all-fives board has inconsistent
pre-filled cells, yet `solve` returns success, not `Unsatisfiable`. -/
theorem C3_counterexample :
    ¬ prefilledConsistent allFives ∧
    (solve zeroDots zeroDots 1 (mkState allFives)).1 = true :=
  ⟨by decide, by decide⟩

/-- Witness for `C3_blocked_cell_unsat`: cell (0,0) of `blockedRows` is
empty, its row already holds 2..9 and its column holds 1, so no value is
assignable and the solver reports `Unsatisfiable`. -/
theorem C3_blocked_cell_unsat_witness :
    (∃ r, r < 9 ∧ ∃ c, c < 9 ∧ boardOfRows blockedRows r c = 0 ∧
      ∀ v, 1 ≤ v → v ≤ 9 →
        is_valid_assignment zeroDots zeroDots (boardOfRows blockedRows) r c v = false) ∧
    (solve zeroDots zeroDots 81 (mkState (boardOfRows blockedRows))).1 = false :=
  ⟨by decide, C3_blocked_cell_unsat zeroDots zeroDots (boardOfRows blockedRows) 81
    (by decide)⟩

/-! ### Claim C10 -/

/-- C10: every nonzero (pre-filled) cell of the input board holds the same
value after `solve` returns, whether the search succeeded or failed. -/
theorem C10_prefilled_preserved (hdots vdots b : Nat → Nat → Nat) (fuel r c : Nat)
    (hpre : b r c ≠ 0) :
    ((solve hdots vdots fuel (mkState b)).2).board r c = b r c := by
  cases hres : (solve hdots vdots fuel (mkState b)).1
  · rw [solve_frame hdots vdots fuel (mkState b) hres]
    rfl
  · exact (solve_sound hdots vdots fuel (mkState b) (domsOK_init b) hres).preserves r c hpre

/-- Witness for `C10_prefilled_preserved` at a concrete input. -/
theorem C10_prefilled_preserved_witness :
    boardOfRows solvedRows 0 0 ≠ 0 ∧
    ((solve zeroDots zeroDots 1 (mkState (boardOfRows solvedRows))).2).board 0 0 =
      boardOfRows solvedRows 0 0 :=
  ⟨by decide, C10_prefilled_preserved zeroDots zeroDots (boardOfRows solvedRows) 1 0 0
    (by decide)⟩

/-! ### Claim C4 -/

/-- The all-zero (empty) board. -/
def zeroBoard : Nat → Nat → Nat := fun _ _ => 0

/-- The legality condition exactly as the specification words it: no other
cell of the row, column, or 3×3 block holds `value`, and for each of the
four adjacent neighbors carrying a marker whose cell is already assigned,
White implies a difference of exactly 1 and Black implies one value is
double the other; unassigned neighbors impose no constraint. -/
def isLegalSpec (hdots vdots b : Nat → Nat → Nat) (row col num : Nat) : Prop :=
  (∀ c', c' < 9 → c' ≠ col → b row c' ≠ num) ∧
  (∀ r', r' < 9 → r' ≠ row → b r' col ≠ num) ∧
  (∀ r', r' < 9 → ∀ c', c' < 9 → r' / 3 = row / 3 → c' / 3 = col / 3 →
    (r', c') ≠ (row, col) → b r' c' ≠ num) ∧
  (col < 8 → hdots row col ≠ 0 → b row (col + 1) ≠ 0 →
    dotRel (hdots row col) num (b row (col + 1))) ∧
  (0 < col → hdots row (col - 1) ≠ 0 → b row (col - 1) ≠ 0 →
    dotRel (hdots row (col - 1)) num (b row (col - 1))) ∧
  (row < 8 → vdots row col ≠ 0 → b (row + 1) col ≠ 0 →
    dotRel (vdots row col) num (b (row + 1) col)) ∧
  (0 < row → vdots (row - 1) col ≠ 0 → b (row - 1) col ≠ 0 →
    dotRel (vdots (row - 1) col) num (b (row - 1) col))

/-- C4: on an empty cell and a candidate value 1..9,
`is_valid_assignment` returns true exactly under the specification's
legality condition. -/
theorem C4_is_valid_iff_spec (hdots vdots b : Nat → Nat → Nat) (row col num : Nat)
    (hrow : row < 9) (hcol : col < 9) (hempty : b row col = 0)
    (h1 : 1 ≤ num) (h9 : num ≤ 9) :
    is_valid_assignment hdots vdots b row col num = true ↔
      isLegalSpec hdots vdots b row col num := by
  rw [is_valid_iff]
  unfold isLegalSpec
  constructor
  · rintro ⟨hrw, hcl, hbk, hd1, hd2, hd3, hd4⟩
    refine ⟨fun c' hc' _ => hrw c' hc', fun r' hr' _ => hcl r' hr',
      fun r' hr' c' hc' hbr hbc _ =>
        hbk (r', c') (mem_blockCells_of_sameBlock hbr hbc),
      fun hc hd ho => (dotFail_eq_false_iff.mp (hd1 hc hd)) ho,
      fun hc hd ho => (dotFail_eq_false_iff.mp (hd2 hc hd)) ho,
      fun hc hd ho => (dotFail_eq_false_iff.mp (hd3 hc hd)) ho,
      fun hc hd ho => (dotFail_eq_false_iff.mp (hd4 hc hd)) ho⟩
  · rintro ⟨hrw, hcl, hbk, hd1, hd2, hd3, hd4⟩
    refine ⟨?_, ?_, ?_,
      fun hc hd => dotFail_eq_false_iff.mpr (hd1 hc hd),
      fun hc hd => dotFail_eq_false_iff.mpr (hd2 hc hd),
      fun hc hd => dotFail_eq_false_iff.mpr (hd3 hc hd),
      fun hc hd => dotFail_eq_false_iff.mpr (hd4 hc hd)⟩
    · intro j hj
      by_cases hjc : j = col
      · rw [hjc, hempty]
        omega
      · exact hrw j hj hjc
    · intro i hi
      by_cases hir : i = row
      · rw [hir, hempty]
        omega
      · exact hcl i hi hir
    · intro p hp
      obtain ⟨hp1, hp2⟩ := blockCells_mem_bounds hp hrow hcol
      rw [mem_blockCells] at hp
      obtain ⟨dr, hdr, dc, hdc, hpe⟩ := hp
      by_cases hpc : p = (row, col)
      · rw [hpc]
        dsimp only
        rw [hempty]
        omega
      · exact hbk p.1 hp1 p.2 hp2 (by rw [hpe]; dsimp only; omega)
          (by rw [hpe]; dsimp only; omega)
          (by rwa [show (p.1, p.2) = p from rfl])

/-- Witness for `C4_is_valid_iff_spec` at a concrete input: the empty board,
cell (0,0), value 1. -/
theorem C4_is_valid_iff_spec_witness :
    zeroBoard 0 0 = 0 ∧
    (is_valid_assignment zeroDots zeroDots zeroBoard 0 0 1 = true ↔
      isLegalSpec zeroDots zeroDots zeroBoard 0 0 1) :=
  ⟨rfl, C4_is_valid_iff_spec zeroDots zeroDots zeroBoard 0 0 1 (by decide) (by decide)
    rfl (by decide) (by decide)⟩

/-! ### Claim C5 -/

/-- C5: if, after a tentative valid assignment of `num` at `(row, col)`,
forward checking leaves some touched cell with an empty domain, then
`forward_check` returns false, and the candidate loop undoes the
assignment, restores domains, and continues with the remaining candidate
values of the same cell — the recursive search function `recur` is not
invoked on this candidate. -/
theorem C5_forward_check_failure_backtracks (hdots vdots : Nat → Nat → Nat)
    (recur : KState → Bool × KState) (row col num : Nat) (rest : List Nat) (s : KState)
    (hvalid : is_valid_assignment hdots vdots s.board row col num = true)
    (hempty : ∃ p, p ∈ (forward_check_aux hdots vdots ⟨upd2 s.board row col num, s.domains⟩
        row col num).2 ∧
      ((forward_check_aux hdots vdots ⟨upd2 s.board row col num, s.domains⟩
        row col num).1).domains p.1 p.2 = []) :
    (forward_check hdots vdots ⟨upd2 s.board row col num, s.domains⟩ row col num).1 = false ∧
    solveLoop hdots vdots recur row col s (num :: rest) =
      solveLoop hdots vdots recur row col
        (restore_domains hdots vdots
          ⟨upd2 ((forward_check hdots vdots ⟨upd2 s.board row col num, s.domains⟩
            row col num).2).board row col 0,
           ((forward_check hdots vdots ⟨upd2 s.board row col num, s.domains⟩
            row col num).2).domains⟩
          row col) rest := by
  obtain ⟨p, hp, hpd⟩ := hempty
  have hfc : (forward_check hdots vdots ⟨upd2 s.board row col num, s.domains⟩
      row col num).1 = false := by
    unfold forward_check
    dsimp only
    rw [List.all_eq_false]
    exact ⟨p, hp, by rw [hpd]; simp⟩
  refine ⟨hfc, ?_⟩
  rw [solveLoop, if_pos hvalid]
  dsimp only
  rw [if_neg (by rw [hfc]; simp)]

/-- The domain table of the concrete C5 witness state: cell (0,1) has the
singleton domain [5], all other cells the full 1..9. -/
def c5DomTable : Nat → Nat → List Nat :=
  fun r c => if r = 0 ∧ c = 1 then [5] else rng19

/-- The concrete C5 witness state: empty board, domains as in `c5DomTable`. -/
def c5State : KState := ⟨zeroBoard, c5DomTable⟩

/-- Witness for `C5_forward_check_failure_backtracks`: assigning 5 at (0,0)
of `c5State` removes the only value of the touched neighbor (0,1), so its
domain empties. -/
theorem C5_forward_check_failure_backtracks_witness :
    is_valid_assignment zeroDots zeroDots c5State.board 0 0 5 = true ∧
    (∃ p, p ∈ (forward_check_aux zeroDots zeroDots
        ⟨upd2 c5State.board 0 0 5, c5State.domains⟩ 0 0 5).2 ∧
      ((forward_check_aux zeroDots zeroDots
        ⟨upd2 c5State.board 0 0 5, c5State.domains⟩ 0 0 5).1).domains p.1 p.2 = []) ∧
    ((forward_check zeroDots zeroDots ⟨upd2 c5State.board 0 0 5, c5State.domains⟩
        0 0 5).1 = false ∧
      solveLoop zeroDots zeroDots (fun t => (true, t)) 0 0 c5State ([5] : List Nat) =
        solveLoop zeroDots zeroDots (fun t => (true, t)) 0 0
          (restore_domains zeroDots zeroDots
            ⟨upd2 ((forward_check zeroDots zeroDots
              ⟨upd2 c5State.board 0 0 5, c5State.domains⟩ 0 0 5).2).board 0 0 0,
             ((forward_check zeroDots zeroDots
              ⟨upd2 c5State.board 0 0 5, c5State.domains⟩ 0 0 5).2).domains⟩
            0 0) ([] : List Nat)) :=
  ⟨by decide, by decide,
   C5_forward_check_failure_backtracks zeroDots zeroDots (fun t => (true, t)) 0 0 5 []
     c5State (by decide) (by decide)⟩

/-! ### Claim C6 -/

/-- C6: `select_unassigned_variable` returns `None` exactly when no empty
cell remains; and a returned cell is an empty in-range cell of minimum
domain size, maximizing the degree among minimum-domain cells, and first in
row-major order among cells tying on both counts.  (The hypothesis that
every domain has at most 9 values holds throughout the search, by
`domsOK`.) -/
theorem C6_select_spec (s : KState)
    (hlen : ∀ r, r < 9 → ∀ c, c < 9 → (s.domains r c).length ≤ 9) :
    (select_unassigned_variable s = none ↔
      ∀ r, r < 9 → ∀ c, c < 9 → s.board r c ≠ 0) ∧
    (∀ p, select_unassigned_variable s = some p →
      p.1 < 9 ∧ p.2 < 9 ∧ s.board p.1 p.2 = 0 ∧
      (∀ q : Nat × Nat, q.1 < 9 → q.2 < 9 → s.board q.1 q.2 = 0 →
        remOf s p ≤ remOf s q) ∧
      (∀ q : Nat × Nat, q.1 < 9 → q.2 < 9 → s.board q.1 q.2 = 0 →
        remOf s q = remOf s p → degOf s q ≤ degOf s p) ∧
      (∀ q : Nat × Nat, q.1 < 9 → q.2 < 9 → s.board q.1 q.2 = 0 →
        remOf s q = remOf s p → degOf s q = degOf s p →
        9 * p.1 + p.2 ≤ 9 * q.1 + q.2)) := by
  constructor
  · exact select_none_iff s (fun r hr c hc _ => hlen r hr c hc)
  · intro p hp
    obtain ⟨hp1, hp2, hp3, hnob, hties⟩ := select_some_spec s p hp
    refine ⟨hp1, hp2, hp3, ?_, ?_, hties⟩
    · intro q hq1 hq2 hqe
      have := hnob q hq1 hq2 hqe
      unfold betterCell at this
      push_neg at this
      omega
    · intro q hq1 hq2 hqe hrem
      have := hnob q hq1 hq2 hqe
      unfold betterCell at this
      push_neg at this
      exact this.2 hrem

/-- Witness for `C6_select_spec` at a concrete input (the board with a
single empty cell (0,0)). -/
theorem C6_select_spec_witness :
    (∀ r, r < 9 → ∀ c, c < 9 →
      ((mkState (boardOfRows blockedRows)).domains r c).length ≤ 9) ∧
    ((select_unassigned_variable (mkState (boardOfRows blockedRows)) = none ↔
      ∀ r, r < 9 → ∀ c, c < 9 → (mkState (boardOfRows blockedRows)).board r c ≠ 0) ∧
    (∀ p, select_unassigned_variable (mkState (boardOfRows blockedRows)) = some p →
      p.1 < 9 ∧ p.2 < 9 ∧ (mkState (boardOfRows blockedRows)).board p.1 p.2 = 0 ∧
      (∀ q : Nat × Nat, q.1 < 9 → q.2 < 9 →
        (mkState (boardOfRows blockedRows)).board q.1 q.2 = 0 →
        remOf (mkState (boardOfRows blockedRows)) p ≤
          remOf (mkState (boardOfRows blockedRows)) q) ∧
      (∀ q : Nat × Nat, q.1 < 9 → q.2 < 9 →
        (mkState (boardOfRows blockedRows)).board q.1 q.2 = 0 →
        remOf (mkState (boardOfRows blockedRows)) q =
          remOf (mkState (boardOfRows blockedRows)) p →
        degOf (mkState (boardOfRows blockedRows)) q ≤
          degOf (mkState (boardOfRows blockedRows)) p) ∧
      (∀ q : Nat × Nat, q.1 < 9 → q.2 < 9 →
        (mkState (boardOfRows blockedRows)).board q.1 q.2 = 0 →
        remOf (mkState (boardOfRows blockedRows)) q =
          remOf (mkState (boardOfRows blockedRows)) p →
        degOf (mkState (boardOfRows blockedRows)) q =
          degOf (mkState (boardOfRows blockedRows)) p →
        9 * p.1 + p.2 ≤ 9 * q.1 + q.2))) :=
  ⟨fun r hr c hc => (domsOK_init (boardOfRows blockedRows) r hr c hc).2,
   C6_select_spec (mkState (boardOfRows blockedRows))
     (fun r hr c hc => (domsOK_init (boardOfRows blockedRows) r hr c hc).2)⟩

/-! ### Claim C9: termination via fuel irrelevance -/

/-- Number of empty cells of the board (scanning the 81 cells). -/
def emptyCount (b : Nat → Nat → Nat) : Nat :=
  (List.range 81).countP fun k => b (k / 9) (k % 9) == 0

theorem countP_ext {p p' : Nat → Bool} :
    ∀ (l : List Nat), (∀ k ∈ l, p k = p' k) → l.countP p = l.countP p' := by
  intro l
  induction l with
  | nil => intro _; rfl
  | cons a as ih =>
      intro h
      rw [List.countP_cons, List.countP_cons, h a (List.mem_cons_self _ _),
        ih (fun k hk => h k (List.mem_cons_of_mem _ hk))]

theorem countP_update_one {p p' : Nat → Bool} :
    ∀ (l : List Nat), l.Nodup → ∀ k0, k0 ∈ l → p k0 = true → p' k0 = false →
      (∀ k ∈ l, k ≠ k0 → p' k = p k) → l.countP p' + 1 = l.countP p := by
  intro l
  induction l with
  | nil => intro _ k0 hk0; exact absurd hk0 (List.not_mem_nil k0)
  | cons a as ih =>
      intro hnd k0 hk0 hp hp' hag
      rw [List.nodup_cons] at hnd
      rcases List.mem_cons.mp hk0 with rfl | hk0'
      · rw [List.countP_cons, List.countP_cons, hp, hp']
        have : as.countP p' = as.countP p :=
          countP_ext as (fun k hk => hag k (List.mem_cons_of_mem _ hk)
            (fun he => hnd.1 (he ▸ hk)))
        rw [this]
        simp
      · have hak0 : a ≠ k0 := fun he => hnd.1 (he ▸ hk0')
        have hpa := hag a (List.mem_cons_self _ _) hak0
        rw [List.countP_cons, List.countP_cons, hpa]
        have := ih hnd.2 k0 hk0' hp hp'
          (fun k hk hne => hag k (List.mem_cons_of_mem _ hk) hne)
        omega

theorem emptyCount_pos (b : Nat → Nat → Nat) (r c : Nat) (hr : r < 9) (hc : c < 9)
    (h0 : b r c = 0) : 0 < emptyCount b := by
  rw [emptyCount, List.countP_pos_iff]
  refine ⟨9 * r + c, by rw [List.mem_range]; omega, ?_⟩
  rw [cellIdx_div r c hr hc, cellIdx_mod r c hr hc, h0]
  rfl

theorem emptyCount_upd2 (b : Nat → Nat → Nat) (r c v : Nat) (hr : r < 9) (hc : c < 9)
    (h0 : b r c = 0) (hv : v ≠ 0) :
    emptyCount (upd2 b r c v) + 1 = emptyCount b := by
  unfold emptyCount
  refine countP_update_one (List.range 81) (List.nodup_range 81) (9 * r + c)
    (by rw [List.mem_range]; omega) ?_ ?_ ?_
  · rw [cellIdx_div r c hr hc, cellIdx_mod r c hr hc, h0]
    rfl
  · rw [cellIdx_div r c hr hc, cellIdx_mod r c hr hc, upd2_self]
    simp [hv]
  · intro k hk hne
    rw [List.mem_range] at hk
    have : ¬(k / 9 = r ∧ k % 9 = c) := by omega
    rw [upd2_ne b r c v this]

theorem solveLoop_fuel_eq (hdots vdots : Nat → Nat → Nat) (row col a1 a2 E : Nat)
    (hIH : ∀ t : KState, emptyCount t.board < E → domsOK t.domains →
      emptyCount t.board < a1 → emptyCount t.board < a2 →
      solve hdots vdots a1 t = solve hdots vdots a2 t)
    (hrow : row < 9) (hcol : col < 9) (ha1 : E ≤ a1) (ha2 : E ≤ a2) :
    ∀ (nums : List Nat) (t : KState), domsOK t.domains → (∀ v ∈ nums, 1 ≤ v) →
      emptyCount t.board = E → t.board row col = 0 →
      solveLoop hdots vdots (fun x => solve hdots vdots a1 x) row col t nums =
        solveLoop hdots vdots (fun x => solve hdots vdots a2 x) row col t nums := by
  intro nums
  induction nums with
  | nil => intro t _ _ _ _; rfl
  | cons num rest ih =>
      intro t hdom hmem hE hb0
      have hn1 : 1 ≤ num := hmem num (List.mem_cons_self _ _)
      have hmem' : ∀ v ∈ rest, 1 ≤ v := fun v hv => hmem v (List.mem_cons_of_mem _ hv)
      rw [solveLoop, solveLoop]
      by_cases hvalid : is_valid_assignment hdots vdots t.board row col num = true
      · rw [if_pos hvalid, if_pos hvalid]
        dsimp only
        set fc := forward_check hdots vdots ⟨upd2 t.board row col num, t.domains⟩ row col num
          with hfcdef
        have hfcb : (fc.2).board = upd2 t.board row col num := by
          rw [hfcdef]; exact forward_check_board _ _ _ _ _ _
        have hfcd : domsOK (fc.2).domains := by
          rw [hfcdef]
          exact forward_check_domsOK _ _ _ _ _ _ hdom
        have hupd : emptyCount (upd2 t.board row col num) + 1 = emptyCount t.board :=
          emptyCount_upd2 t.board row col num hrow hcol hb0 (by omega)
        by_cases hfc : fc.1 = true
        · rw [if_pos hfc, if_pos hfc]
          have hfcE : emptyCount (fc.2).board < E := by
            rw [hfcb]; omega
          have hreq : solve hdots vdots a1 fc.2 = solve hdots vdots a2 fc.2 :=
            hIH fc.2 hfcE hfcd (by rw [hfcb]; omega) (by rw [hfcb]; omega)
          rw [hreq]
          by_cases hr2 : (solve hdots vdots a2 fc.2).1 = true
          · rw [if_pos hr2, if_pos hr2]
          · rw [if_neg hr2, if_neg hr2]
            have hrb := solve_frame hdots vdots a2 fc.2 (Bool.eq_false_iff.mpr hr2)
            have ht' : ((restore_domains hdots vdots
                ⟨upd2 ((solve hdots vdots a2 fc.2).2).board row col 0,
                 ((solve hdots vdots a2 fc.2).2).domains⟩ row col)).board = t.board := by
              rw [restore_domains_board]
              dsimp only
              rw [hrb, hfcb, upd2_upd2, upd2_eq_self _ _ _ hb0]
            exact ih _ (restore_domains_domsOK _ _ _ _ _
                (solve_domsOK hdots vdots a2 fc.2 hfcd))
              hmem' (by rw [ht', hE]) (by rw [ht']; exact hb0)
        · rw [if_neg hfc, if_neg hfc]
          have ht' : ((restore_domains hdots vdots
              ⟨upd2 (fc.2).board row col 0, (fc.2).domains⟩ row col)).board = t.board := by
            rw [restore_domains_board]
            dsimp only
            rw [hfcb, upd2_upd2, upd2_eq_self _ _ _ hb0]
          exact ih _ (restore_domains_domsOK _ _ _ _ _ hfcd)
            hmem' (by rw [ht', hE]) (by rw [ht']; exact hb0)
      · rw [if_neg hvalid, if_neg hvalid]
        exact ih t hdom hmem' hE hb0

/-- C9: `solve` terminates — any fuel exceeding the number of empty cells
gives the same result, because every recursive call assigns a
previously-empty cell, so the number of empty cells strictly decreases and
the recursion depth is bounded by the (finite) number of empty cells. -/
theorem C9_solve_fuel_irrelevant (hdots vdots : Nat → Nat → Nat) :
    ∀ (n : Nat) (s : KState) (f1 f2 : Nat), emptyCount s.board ≤ n →
      domsOK s.domains → emptyCount s.board < f1 → emptyCount s.board < f2 →
      solve hdots vdots f1 s = solve hdots vdots f2 s := by
  intro n
  induction n using Nat.strong_induction_on with
  | _ n ihn =>
      intro s f1 f2 hn hdom h1 h2
      obtain ⟨a1, rfl⟩ : ∃ a1, f1 = a1 + 1 := ⟨f1 - 1, by omega⟩
      obtain ⟨a2, rfl⟩ : ∃ a2, f2 = a2 + 1 := ⟨f2 - 1, by omega⟩
      rw [solve, solve]
      cases hsel : select_unassigned_variable s with
      | none => rfl
      | some p =>
          obtain ⟨row, col⟩ := p
          dsimp only
          obtain ⟨hrow, hcol, hb0, -, -⟩ := select_some_spec s (row, col) hsel
          have hpos : 0 < emptyCount s.board :=
            emptyCount_pos s.board row col hrow hcol hb0
          refine solveLoop_fuel_eq hdots vdots row col a1 a2 (emptyCount s.board)
            ?_ hrow hcol (by omega) (by omega) _ s hdom ?_ rfl hb0
          · intro t htE htd ht1 ht2
            exact ihn (emptyCount t.board)
              (by omega) t a1 a2 (le_refl _) htd ht1 ht2
          · intro v hv
            exact ((hdom row hrow col hcol).1 v (mem_sortAsc.mp hv)).1

/-- Witness for `C9_solve_fuel_irrelevant` at a concrete input: the board
with one empty cell, fuels 2 and 3. -/
theorem C9_solve_fuel_irrelevant_witness :
    emptyCount (mkState (boardOfRows blockedRows)).board ≤ 81 ∧
    domsOK (mkState (boardOfRows blockedRows)).domains ∧
    emptyCount (mkState (boardOfRows blockedRows)).board < 82 ∧
    emptyCount (mkState (boardOfRows blockedRows)).board < 83 ∧
    solve zeroDots zeroDots 82 (mkState (boardOfRows blockedRows)) =
      solve zeroDots zeroDots 83 (mkState (boardOfRows blockedRows)) :=
  ⟨by decide, domsOK_init (boardOfRows blockedRows), by decide, by decide,
   C9_solve_fuel_irrelevant zeroDots zeroDots 81 (mkState (boardOfRows blockedRows))
     82 83 (by decide) (domsOK_init (boardOfRows blockedRows)) (by decide) (by decide)⟩

/-! ### Claim C8 -/

/-- The board with value `v` pre-filled at `(r, c1)` and `(r, c2)` and every
other cell empty. -/
def twoInRowBoard (v r c1 c2 : Nat) : Nat → Nat → Nat :=
  fun r' c' => if r' = r ∧ (c' = c1 ∨ c' = c2) then v else 0

theorem twoInRowBoard_ne_zero_iff {v r c1 c2 r' c' : Nat} (hv : 1 ≤ v) :
    twoInRowBoard v r c1 c2 r' c' ≠ 0 ↔ (r' = r ∧ (c' = c1 ∨ c' = c2)) := by
  unfold twoInRowBoard
  split
  · rename_i h
    exact iff_of_true (by omega) h
  · rename_i h
    exact iff_of_false (by omega) h

theorem twoInRowBoard_at1 {v r c1 c2 : Nat} : twoInRowBoard v r c1 c2 r c1 = v := by
  unfold twoInRowBoard
  rw [if_pos ⟨rfl, Or.inl rfl⟩]

theorem twoInRowBoard_at2 {v r c1 c2 : Nat} : twoInRowBoard v r c1 c2 r c2 = v := by
  unfold twoInRowBoard
  rw [if_pos ⟨rfl, Or.inr rfl⟩]

/-- A board *containing* a duplicated pre-filled pair in row 0 (two 1s, at
`(0,0)` and `(0,1)`), together with other pre-filled cells and one empty
cell `(8,8)` that the search itself must assign. -/
def dupPairRows : List (List Nat) :=
  [[1, 1, 3, 4, 5, 6, 7, 8, 9],
   [4, 5, 6, 7, 8, 9, 1, 2, 3],
   [7, 8, 9, 1, 2, 3, 4, 5, 6],
   [2, 3, 4, 5, 6, 7, 8, 9, 1],
   [5, 6, 7, 8, 9, 1, 2, 3, 4],
   [8, 9, 1, 2, 3, 4, 5, 6, 7],
   [3, 4, 5, 6, 7, 8, 9, 1, 2],
   [6, 7, 8, 9, 1, 2, 3, 4, 5],
   [9, 1, 2, 3, 4, 5, 6, 7, 0]]

/-- The original C8 claim is false as stated: it quantifies over *every*
starting board containing two equal values pre-filled in one row, but
`solve` only validates the values it assigns itself, never pre-filled
pairs.  On `dupPairRows` — which pre-fills the value 1 at both `(0,0)` and
`(0,1)` of row 0 and leaves `(8,8)` empty — the search assigns the empty
cell and returns success, and the duplicated pair survives in the "solved"
grid. -/
theorem C8_counterexample :
    boardOfRows dupPairRows 0 0 = 1 ∧ boardOfRows dupPairRows 0 1 = 1 ∧
    boardOfRows dupPairRows 8 8 = 0 ∧
    (solve zeroDots zeroDots 82 (mkState (boardOfRows dupPairRows))).1 = true ∧
    ((solve zeroDots zeroDots 82 (mkState (boardOfRows dupPairRows))).2).board 8 8 = 8 ∧
    ((solve zeroDots zeroDots 82 (mkState (boardOfRows dupPairRows))).2).board 0 0 = 1 ∧
    ((solve zeroDots zeroDots 82 (mkState (boardOfRows dupPairRows))).2).board 0 1 = 1 := by
  refine ⟨by decide, by decide, by decide, ?_, ?_, ?_, ?_⟩ <;> decide

/-- C8 (amended): a starting board whose *only* pre-filled cells are the
same value `v` (1..9) twice in one row, with all other cells empty and no
markers, always makes `solve` return `Unsatisfiable` — never a false
success — for every fuel.  (For boards merely *containing* such a pair the
original claim fails, see `C8_counterexample`.) -/
theorem C8_two_in_row_unsat (v r c1 c2 fuel : Nat) (hv1 : 1 ≤ v) (hv9 : v ≤ 9)
    (hr : r < 9) (hc1 : c1 < 9) (hc2 : c2 < 9) (hne : c1 ≠ c2) :
    (solve zeroDots zeroDots fuel (mkState (twoInRowBoard v r c1 c2))).1 = false := by
  cases hres : (solve zeroDots zeroDots fuel (mkState (twoInRowBoard v r c1 c2))).1
  · rfl
  · exfalso
    set b := twoInRowBoard v r c1 c2 with hbdef
    have hS := solve_sound zeroDots zeroDots fuel (mkState b) (domsOK_init b) hres
    have hmb : (mkState b).board = b := rfl
    rw [hmb] at hS
    set b' := ((solve zeroDots zeroDots fuel (mkState b)).2).board with hb'def
    have hle9 : boardLe9 b := by
      intro r' _ c' _
      rw [hbdef]
      unfold twoInRowBoard
      split <;> omega
    have hvals := SolveSound_vals9 hS hle9
    -- prefilled cells are exactly (r, c1) and (r, c2), both holding v
    have hpre : ∀ r' c', b r' c' ≠ 0 ↔ (r' = r ∧ (c' = c1 ∨ c' = c2)) :=
      fun r' c' => twoInRowBoard_ne_zero_iff hv1
    have hb'c1 : b' r c1 = v := by
      rw [hS.preserves r c1 ((hpre r c1).mpr ⟨rfl, Or.inl rfl⟩)]
      exact twoInRowBoard_at1
    have hb'c2 : b' r c2 = v := by
      rw [hS.preserves r c2 ((hpre r c2).mpr ⟨rfl, Or.inr rfl⟩)]
      exact twoInRowBoard_at2
    -- columns are injective: two prefilled cells never share a column
    have hcolinj : ∀ j, j < 9 → ∀ i i', i < 9 → i' < 9 → i ≠ i' → b' i j ≠ b' i' j := by
      intro j hj i i' hi hi' hii
      rcases hS.uniq i j i' j hi hj hi' hj (Or.inr (Or.inl rfl))
        (by rw [Ne, Prod.mk.injEq]; rintro ⟨h1, -⟩; exact hii h1) with ⟨h1, h2⟩ | hne'
      · obtain ⟨hi1, -⟩ := (hpre i j).mp h1
        obtain ⟨hi2, -⟩ := (hpre i' j).mp h2
        exact absurd (hi1.trans hi2.symm) hii
      · exact hne'
    -- rows other than r are injective
    have hrowinj : ∀ i, i < 9 → i ≠ r → ∀ j j', j < 9 → j' < 9 → j ≠ j' →
        b' i j ≠ b' i j' := by
      intro i hi hir j j' hj hj' hjj
      rcases hS.uniq i j i j' hi hj hi hj' (Or.inl rfl)
        (by rw [Ne, Prod.mk.injEq]; rintro ⟨-, h2⟩; exact hjj h2) with ⟨h1, -⟩ | hne'
      · exact absurd ((hpre i j).mp h1).1 hir
      · exact hne'
    -- in row r, every cell other than (r, c1) differs from b' r c1 = v
    have hrow_r : ∀ j, j < 9 → j ≠ c1 → b' r j ≠ v ∨ (j = c2) := by
      intro j hj hjc1
      by_cases hjc2 : j = c2
      · exact Or.inr hjc2
      · left
        rw [← hb'c1]
        rcases hS.uniq r j r c1 hr hj hr hc1 (Or.inl rfl)
          (by rw [Ne, Prod.mk.injEq]; rintro ⟨-, h2⟩; exact hjc1 h2) with ⟨h1, -⟩ | hne'
        · obtain ⟨-, hj12⟩ := (hpre r j).mp h1
          rcases hj12 with h | h
          · exact absurd h hjc1
          · exact absurd h hjc2
        · exact hne'
    -- the digits of row r miss some digit d0 of 1..9, because the row's
    -- image has at most 8 values (cells c1 and c2 repeat v)
    have himg : Finset.image (fun c => b' r c) (Finset.range 9) =
        Finset.image (fun c => b' r c) ((Finset.range 9).erase c2) := by
      apply Finset.Subset.antisymm
      · intro x hx
        rw [Finset.mem_image] at hx
        obtain ⟨c, hc, hcx⟩ := hx
        by_cases hcc2 : c = c2
        · rw [Finset.mem_image]
          exact ⟨c1, Finset.mem_erase.mpr ⟨hne, Finset.mem_range.mpr hc1⟩,
            by rw [hb'c1, ← hb'c2, ← hcc2]; exact hcx⟩
        · rw [Finset.mem_image]
          exact ⟨c, Finset.mem_erase.mpr ⟨hcc2, hc⟩, hcx⟩
      · exact Finset.image_subset_image (Finset.erase_subset _ _)
    have hcard : (Finset.image (fun c => b' r c) (Finset.range 9)).card ≤ 8 := by
      rw [himg]
      calc (Finset.image (fun c => b' r c) ((Finset.range 9).erase c2)).card
          ≤ ((Finset.range 9).erase c2).card := Finset.card_image_le
        _ = 8 := by
            rw [Finset.card_erase_of_mem (Finset.mem_range.mpr hc2), Finset.card_range]
    have hd0 : ∃ d0, d0 ∈ Finset.Icc 1 9 ∧
        d0 ∉ Finset.image (fun c => b' r c) (Finset.range 9) := by
      by_contra hcon
      push_neg at hcon
      have hsub : Finset.Icc 1 9 ⊆ Finset.image (fun c => b' r c) (Finset.range 9) :=
        fun d hd => hcon d hd
      have := Finset.card_le_card hsub
      rw [Nat.card_Icc] at this
      omega
    obtain ⟨d0, hd0m, hd0n⟩ := hd0
    rw [Finset.mem_Icc] at hd0m
    have hd0row : ∀ j, j < 9 → b' r j ≠ d0 := by
      intro j hj hbj
      exact hd0n (Finset.mem_image.mpr ⟨j, Finset.mem_range.mpr hj, hbj⟩)
    -- every column contains d0 (nine distinct values in 1..9 cover 1..9)
    have hcol_surj : ∀ j, j < 9 → ∃ i, i < 9 ∧ b' i j = d0 := by
      intro j hj
      exact nine_inj_surj (f := fun i => b' i j)
        (fun i hi => hvals i j hi hj)
        (fun i i' hi hi' hii => hcolinj j hj i i' hi hi' hii)
        d0 hd0m.1 hd0m.2
    -- choose, for each column, a row holding d0: an injection of the 9
    -- columns into the 8 rows other than r — contradiction
    have hinto : ∀ j ∈ Finset.range 9,
        (fun j => if h : j < 9 then (hcol_surj j h).choose else 0) j ∈
          (Finset.range 9).erase r := by
      intro j hj
      rw [Finset.mem_range] at hj
      dsimp only
      rw [dif_pos hj]
      obtain ⟨hi9, hid0⟩ := (hcol_surj j hj).choose_spec
      refine Finset.mem_erase.mpr ⟨?_, Finset.mem_range.mpr hi9⟩
      intro hir
      exact hd0row j hj (by rw [← hir]; exact hid0)
    have hinj : ∀ j1 ∈ Finset.range 9, ∀ j2 ∈ Finset.range 9,
        (fun j => if h : j < 9 then (hcol_surj j h).choose else 0) j1 =
          (fun j => if h : j < 9 then (hcol_surj j h).choose else 0) j2 → j1 = j2 := by
      intro j1 hj1 j2 hj2 heq
      rw [Finset.mem_range] at hj1 hj2
      dsimp only at heq
      rw [dif_pos hj1, dif_pos hj2] at heq
      obtain ⟨hi1, hd1⟩ := (hcol_surj j1 hj1).choose_spec
      obtain ⟨hi2, hd2⟩ := (hcol_surj j2 hj2).choose_spec
      by_contra hnejj
      have hirow : (hcol_surj j1 hj1).choose ≠ r := by
        intro hir
        exact hd0row j1 hj1 (by rw [← hir]; exact hd1)
      exact hrowinj (hcol_surj j1 hj1).choose hi1 hirow j1 j2 hj1 hj2 hnejj
        (by rw [hd1, heq, hd2])
    have hle := Finset.card_le_card_of_injOn
      (fun j => if h : j < 9 then (hcol_surj j h).choose else 0) hinto hinj
    rw [Finset.card_range,
      Finset.card_erase_of_mem (Finset.mem_range.mpr hr), Finset.card_range] at hle
    omega

/-- Witness for `C8_two_in_row_unsat`: two 5s at (0,0) and (0,1), rest
empty; the claim holds for every fuel, instantiated here at fuel 82. -/
theorem C8_two_in_row_unsat_witness :
    1 ≤ 5 ∧ (5 : Nat) ≤ 9 ∧ (0 : Nat) < 9 ∧ (0 : Nat) < 9 ∧ (1 : Nat) < 9 ∧ (0 : Nat) ≠ 1 ∧
    (solve zeroDots zeroDots 82 (mkState (twoInRowBoard 5 0 0 1))).1 = false :=
  ⟨by decide, by decide, by decide, by decide, by decide, by decide,
   C8_two_in_row_unsat 5 0 0 1 82 (by decide) (by decide) (by decide) (by decide)
     (by decide) (by decide)⟩

/-! ### Claim C7: the domain tables never over-prune -/

/-- The invariant: for every empty cell of board `B`, the domain table `d`
contains every value 1..9 that is currently a valid assignment there. -/
def InvOn (hdots vdots B : Nat → Nat → Nat) (d : Nat → Nat → List Nat) : Prop :=
  ∀ r, r < 9 → ∀ c, c < 9 → B r c = 0 → ∀ v, 1 ≤ v → v ≤ 9 →
    is_valid_assignment hdots vdots B r c v = true → v ∈ d r c

/-- The initial domain table satisfies the invariant (empty cells start with
the full candidate set). -/
theorem InvOn_init (hdots vdots b : Nat → Nat → Nat) :
    InvOn hdots vdots b (init_domains b) := by
  intro r _ c _ h0 v h1 h9 _
  unfold init_domains
  rw [List.mem_filter]
  exact ⟨mem_rng19.mpr ⟨h1, h9⟩, by rw [h0]; rfl⟩

/-- Changing a cell outside the unit of `(r, c)` does not affect legality at
`(r, c)`. -/
theorem valid_upd2_not_unit {hdots vdots B : Nat → Nat → Nat} {r0 c0 x r c num : Nat}
    (hr : r < 9) (hc : c < 9) (hnu : ¬ sameUnit r c r0 c0) :
    (is_valid_assignment hdots vdots B r c num = true ↔
      is_valid_assignment hdots vdots (upd2 B r0 c0 x) r c num = true) := by
  refine valid_congr_unit hr hc ?_
  intro i j _ _ hu
  refine upd2_ne B r0 c0 x ?_
  rintro ⟨rfl, rfl⟩
  exact hnu hu

/-- The combined fold state property for the `forward_check` lemmas. -/
def FP (hdots vdots B : Nat → Nat → Nat) (acc : KState × List (Nat × Nat)) : Prop :=
  acc.1.board = B ∧ InvOn hdots vdots B acc.1.domains

theorem fcCellStep_FP {hdots vdots B : Nat → Nat → Nat} {num r0 c0 : Nat}
    (hr0 : r0 < 9) (hc0 : c0 < 9) (hB : B r0 c0 = num)
    (p : Nat × Nat) (hp : sameUnit p.1 p.2 r0 c0)
    (acc : KState × List (Nat × Nat)) (h : FP hdots vdots B acc) :
    FP hdots vdots B (fcCellStep num acc p) := by
  obtain ⟨hb, hI⟩ := h
  unfold fcCellStep
  split
  · refine ⟨hb, ?_⟩
    intro r hr c hc h0 v h1 h9 hval
    dsimp only
    by_cases hq : r = p.1 ∧ c = p.2
    · rw [hq.1, hq.2, upd2_self]
      have hvne : v ≠ num := by
        have := valid_excludes hval hr0 hc0 (by rw [hq.1, hq.2]; exact hp)
        rw [hB] at this
        exact fun he => this he.symm
      rw [List.mem_erase_of_ne hvne]
      rw [← hq.1, ← hq.2]
      exact hI r hr c hc h0 v h1 h9 hval
    · rw [upd2_ne _ _ _ _ hq]
      exact hI r hr c hc h0 v h1 h9 hval
  · exact ⟨hb, hI⟩

theorem update_dot_FP {hdots vdots B : Nat → Nat → Nat} {num : Nat} (R C D : Nat)
    (acc : KState × List (Nat × Nat))
    (hrel : ∀ v, 1 ≤ v → v ≤ 9 → B R C = 0 →
      is_valid_assignment hdots vdots B R C v = true → dotRel D v num)
    (h : FP hdots vdots B acc) :
    FP hdots vdots B (update_domain_with_dot_constraint acc.1 acc.2 R C num D) := by
  obtain ⟨hb, hI⟩ := h
  unfold update_domain_with_dot_constraint
  split
  · rename_i hg
    simp only [Bool.and_eq_true, decide_eq_true_eq, beq_iff_eq] at hg
    obtain ⟨⟨hR9, hC9⟩, hRC0⟩ := hg
    rw [hb] at hRC0
    refine ⟨hb, ?_⟩
    intro r hr c hc h0 v h1 h9 hval
    dsimp only
    by_cases hq : r = R ∧ c = C
    · rw [hq.1, hq.2, upd2_self]
      have hdr : dotRel D v num := hrel v h1 h9 (by rw [← hq.1, ← hq.2]; exact h0)
        (by rw [← hq.1, ← hq.2]; exact hval)
      have hmem : v ∈ acc.1.domains R C := by
        rw [← hq.1, ← hq.2]
        exact hI r hr c hc h0 v h1 h9 hval
      by_cases hD1 : D = 1
      · rw [if_pos (by rw [hD1]; rfl)]
        rw [List.mem_filter]
        exact ⟨hmem, by rw [hdr.1 hD1]; rfl⟩
      · rw [if_neg (by simpa using hD1)]
        by_cases hD2 : D = 2
        · rw [if_pos (by rw [hD2]; rfl)]
          rw [List.mem_filter]
          refine ⟨hmem, ?_⟩
          rcases hdr.2 hD2 with hh | hh <;> simp [hh]
        · rw [if_neg (by simpa using hD2)]
          exact hmem
    · rw [upd2_ne _ _ _ _ hq]
      exact hI r hr c hc h0 v h1 h9 hval
  · exact ⟨hb, hI⟩

theorem update_dot_if_FP {hdots vdots B : Nat → Nat → Nat} {num : Nat}
    (cond : Prop) [inst : Decidable cond] (R C D : Nat)
    (acc : KState × List (Nat × Nat))
    (hrel : cond → ∀ v, 1 ≤ v → v ≤ 9 → B R C = 0 →
      is_valid_assignment hdots vdots B R C v = true → dotRel D v num)
    (h : FP hdots vdots B acc) :
    FP hdots vdots B
      (if cond then update_domain_with_dot_constraint acc.1 acc.2 R C num D else acc) := by
  split
  · rename_i hcond
    exact update_dot_FP R C D acc (hrel hcond) h
  · exact h

theorem forward_check_FP {hdots vdots B : Nat → Nat → Nat} {num r0 c0 : Nat}
    (hr0 : r0 < 9) (hc0 : c0 < 9) (hB : B r0 c0 = num) (hnum0 : num ≠ 0)
    (s1 : KState) (hb : s1.board = B) (hI : InvOn hdots vdots B s1.domains) :
    ((forward_check hdots vdots s1 r0 c0 num).2).board = B ∧
    InvOn hdots vdots B ((forward_check hdots vdots s1 r0 c0 num).2).domains := by
  have hrelR : c0 < 8 → ∀ v, 1 ≤ v → v ≤ 9 → B r0 (c0 + 1) = 0 →
      is_valid_assignment hdots vdots B r0 (c0 + 1) v = true →
      dotRel (hdots r0 c0) v num := by
    intro _ v _ _ _ hval
    by_cases hD0 : hdots r0 c0 = 0
    · exact ⟨fun h => absurd (hD0 ▸ h) (by decide), fun h => absurd (hD0 ▸ h) (by decide)⟩
    · rw [is_valid_iff] at hval
      have h5 := hval.2.2.2.2.1
      simp only [Nat.add_sub_cancel] at h5
      have := (dotFail_eq_false_iff.mp (h5 (by omega) hD0)) (by rw [hB]; exact hnum0)
      rwa [hB] at this
  have hrelL : 0 < c0 → ∀ v, 1 ≤ v → v ≤ 9 → B r0 (c0 - 1) = 0 →
      is_valid_assignment hdots vdots B r0 (c0 - 1) v = true →
      dotRel (hdots r0 (c0 - 1)) v num := by
    intro hpos v _ _ _ hval
    by_cases hD0 : hdots r0 (c0 - 1) = 0
    · exact ⟨fun h => absurd (hD0 ▸ h) (by decide), fun h => absurd (hD0 ▸ h) (by decide)⟩
    · rw [is_valid_iff] at hval
      have h4 := hval.2.2.2.1
      rw [show c0 - 1 + 1 = c0 from by omega] at h4
      have := (dotFail_eq_false_iff.mp (h4 (by omega) hD0)) (by rw [hB]; exact hnum0)
      rwa [hB] at this
  have hrelD : r0 < 8 → ∀ v, 1 ≤ v → v ≤ 9 → B (r0 + 1) c0 = 0 →
      is_valid_assignment hdots vdots B (r0 + 1) c0 v = true →
      dotRel (vdots r0 c0) v num := by
    intro _ v _ _ _ hval
    by_cases hD0 : vdots r0 c0 = 0
    · exact ⟨fun h => absurd (hD0 ▸ h) (by decide), fun h => absurd (hD0 ▸ h) (by decide)⟩
    · rw [is_valid_iff] at hval
      have h7 := hval.2.2.2.2.2.2
      simp only [Nat.add_sub_cancel] at h7
      have := (dotFail_eq_false_iff.mp (h7 (by omega) hD0)) (by rw [hB]; exact hnum0)
      rwa [hB] at this
  have hrelU : 0 < r0 → ∀ v, 1 ≤ v → v ≤ 9 → B (r0 - 1) c0 = 0 →
      is_valid_assignment hdots vdots B (r0 - 1) c0 v = true →
      dotRel (vdots (r0 - 1) c0) v num := by
    intro hpos v _ _ _ hval
    by_cases hD0 : vdots (r0 - 1) c0 = 0
    · exact ⟨fun h => absurd (hD0 ▸ h) (by decide), fun h => absurd (hD0 ▸ h) (by decide)⟩
    · rw [is_valid_iff] at hval
      have h6 := hval.2.2.2.2.2.1
      rw [show r0 - 1 + 1 = r0 from by omega] at h6
      have := (dotFail_eq_false_iff.mp (h6 (by omega) hD0)) (by rw [hB]; exact hnum0)
      rwa [hB] at this
  have h1 : FP hdots vdots B
      (loopList (fcRowColStep r0 c0 num) (s1, []) (List.range 9)) :=
    loopList_inv (FP hdots vdots B) _
      (fun acc i h =>
        fcCellStep_FP hr0 hc0 hB (i, c0) (Or.inr (Or.inl rfl)) _
          (fcCellStep_FP hr0 hc0 hB (r0, i) (Or.inl rfl) acc h))
      _ _ ⟨hb, hI⟩
  have h2 : FP hdots vdots B
      (loopList (fcCellStep num)
        (loopList (fcRowColStep r0 c0 num) (s1, []) (List.range 9))
        (blockCells r0 c0)) :=
    loopList_mem_inv (FP hdots vdots B) _ _
      (fun acc p hp h =>
        fcCellStep_FP hr0 hc0 hB p (sameUnit_symm (blockCells_mem_sameUnit hp)) acc h)
      _ h1
  have haux : FP hdots vdots B (forward_check_aux hdots vdots s1 r0 c0 num) := by
    unfold forward_check_aux
    dsimp only
    exact update_dot_if_FP _ _ _ _ _ hrelU
      (update_dot_if_FP _ _ _ _ _ hrelD
        (update_dot_if_FP _ _ _ _ _ hrelL
          (update_dot_if_FP _ _ _ _ _ hrelR h2)))
  exact ⟨haux.1, haux.2⟩

/-- The list of currently legal values at a cell (what `restore_domains`
recomputes). -/
def legalList (hdots vdots B : Nat → Nat → Nat) (r c : Nat) : List Nat :=
  rng19.filter fun x => is_valid_assignment hdots vdots B r c x

theorem restoreCell_sets {hdots vdots B : Nat → Nat → Nat} {t : KState} {i j : Nat}
    (hb : t.board = B) (h0 : B i j = 0) :
    (restoreCell hdots vdots t i j).domains i j = legalList hdots vdots B i j := by
  unfold restoreCell
  rw [if_pos (by rw [hb, h0]; rfl)]
  dsimp only
  rw [upd2_self, hb]
  rfl

theorem restoreCell_stable {hdots vdots B : Nat → Nat → Nat} {t : KState} {q1 q2 : Nat}
    (i j : Nat) (hb : t.board = B)
    (hq : t.domains q1 q2 = legalList hdots vdots B q1 q2) :
    (restoreCell hdots vdots t i j).domains q1 q2 = legalList hdots vdots B q1 q2 := by
  unfold restoreCell
  split
  · dsimp only
    by_cases he : q1 = i ∧ q2 = j
    · rw [he.1, he.2, upd2_self, hb, ← he.1, ← he.2]
      rfl
    · rw [upd2_ne _ _ _ _ he]
      exact hq
  · exact hq

theorem restoreCell_other {hdots vdots : Nat → Nat → Nat} {t : KState} {q1 q2 : Nat}
    (i j : Nat) (hne : ¬(q1 = i ∧ q2 = j)) :
    (restoreCell hdots vdots t i j).domains q1 q2 = t.domains q1 q2 := by
  unfold restoreCell
  split
  · dsimp only
    rw [upd2_ne _ _ _ _ hne]
  · rfl

theorem loopList_hit {σ α : Type} (Q P : σ → Prop) (f : σ → α → σ) (a0 : α)
    (hQ : ∀ acc a, Q acc → Q (f acc a))
    (hset : ∀ acc, Q acc → P (f acc a0))
    (hP : ∀ acc a, Q acc → P acc → P (f acc a)) :
    ∀ (l : List α) (acc : σ), a0 ∈ l → Q acc →
      Q (loopList f acc l) ∧ P (loopList f acc l) := by
  intro l
  induction l with
  | nil => intro acc h; exact absurd h (List.not_mem_nil a0)
  | cons a as ih =>
      intro acc hmem hq
      rcases List.mem_cons.mp hmem with heq | hmem'
      · subst heq
        rw [loopList]
        exact loopList_inv (fun s => Q s ∧ P s) f
          (fun acc a h => ⟨hQ acc a h.1, hP acc a h.1 h.2⟩) as _
          ⟨hQ acc a0 hq, hset acc hq⟩
      · rw [loopList]
        exact ih (f acc a) hmem' (hQ acc a hq)

theorem loopBlock_keeps {hdots vdots B : Nat → Nat → Nat} {q1 q2 : Nat} :
    ∀ (l : List (Nat × Nat)) (acc : KState), acc.board = B →
      acc.domains q1 q2 = legalList hdots vdots B q1 q2 →
      (loopList (fun t p => restoreCell hdots vdots t p.1 p.2) acc l).board = B ∧
      (loopList (fun t p => restoreCell hdots vdots t p.1 p.2) acc l).domains q1 q2 =
        legalList hdots vdots B q1 q2 := by
  intro l
  induction l with
  | nil => intro acc hb hd; exact ⟨hb, hd⟩
  | cons p tl ih =>
      intro acc hb hd
      rw [loopList]
      exact ih _ (by rw [restoreCell_board]; exact hb)
        (restoreCell_stable _ _ hb hd)

theorem loopBlock_hits {hdots vdots B : Nat → Nat → Nat} {p : Nat × Nat}
    (h0 : B p.1 p.2 = 0) :
    ∀ (l : List (Nat × Nat)) (acc : KState), acc.board = B → p ∈ l →
      (loopList (fun t q => restoreCell hdots vdots t q.1 q.2) acc l).domains p.1 p.2 =
        legalList hdots vdots B p.1 p.2 := by
  intro l
  induction l with
  | nil => intro acc _ hmem; exact absurd hmem (List.not_mem_nil p)
  | cons q tl ih =>
      intro acc hb hmem
      rw [loopList]
      rcases List.mem_cons.mp hmem with heq | hmem'
      · subst heq
        exact (loopBlock_keeps tl _ (by rw [restoreCell_board]; exact hb)
          (restoreCell_sets hb h0)).2
      · exact ih _ (by rw [restoreCell_board]; exact hb) hmem'

theorem loopRow_untouched {hdots vdots : Nat → Nat → Nat} {r0 c0 r c : Nat}
    (D : List Nat) (hr : r ≠ r0) (hc : c ≠ c0) :
    ∀ (l : List Nat) (acc : KState), acc.domains r c = D →
      (loopList (fun s i => restoreCell hdots vdots (restoreCell hdots vdots s r0 i) i c0)
        acc l).domains r c = D := by
  intro l
  induction l with
  | nil => intro acc hd; exact hd
  | cons i tl ih =>
      intro acc hd
      rw [loopList]
      refine ih _ ?_
      rw [restoreCell_other i c0 (by rintro ⟨-, rfl⟩; exact hc rfl),
        restoreCell_other r0 i (by rintro ⟨rfl, -⟩; exact hr rfl)]
      exact hd

theorem loopBlock_untouched {hdots vdots : Nat → Nat → Nat} {r c : Nat}
    (D : List Nat) :
    ∀ (l : List (Nat × Nat)) (acc : KState),
      (∀ p ∈ l, ¬(r = p.1 ∧ c = p.2)) → acc.domains r c = D →
      (loopList (fun t p => restoreCell hdots vdots t p.1 p.2) acc l).domains r c =
        D := by
  intro l
  induction l with
  | nil => intro acc _ hd; exact hd
  | cons p tl ih =>
      intro acc hne hd
      rw [loopList]
      refine ih _ (fun q hq => hne q (List.mem_cons_of_mem p hq)) ?_
      rw [restoreCell_other p.1 p.2 (hne p (List.mem_cons_self p tl))]
      exact hd

theorem restore_row_sets {hdots vdots B : Nat → Nat → Nat} {r0 c0 j : Nat}
    (t : KState) (hb : t.board = B) (h0 : B r0 j = 0) (hj : j < 9) :
    (restore_domains hdots vdots t r0 c0).domains r0 j =
      legalList hdots vdots B r0 j := by
  unfold restore_domains
  dsimp only
  have hrow := loopList_hit (fun s : KState => s.board = B)
    (fun s : KState => s.domains r0 j = legalList hdots vdots B r0 j)
    (fun s i => restoreCell hdots vdots (restoreCell hdots vdots s r0 i) i c0) j
    (fun acc i h => by
      show (restoreCell hdots vdots (restoreCell hdots vdots acc r0 i) i c0).board = B
      rw [restoreCell_board, restoreCell_board]; exact h)
    (fun acc hq => by
      show (restoreCell hdots vdots (restoreCell hdots vdots acc r0 j) j c0).domains r0 j =
        legalList hdots vdots B r0 j
      exact restoreCell_stable _ _ (by rw [restoreCell_board]; exact hq)
        (restoreCell_sets hq h0))
    (fun acc i hq hp => by
      show (restoreCell hdots vdots (restoreCell hdots vdots acc r0 i) i c0).domains r0 j =
        legalList hdots vdots B r0 j
      exact restoreCell_stable _ _ (by rw [restoreCell_board]; exact hq)
        (restoreCell_stable _ _ hq hp))
    (List.range 9) t (List.mem_range.mpr hj) hb
  exact (loopBlock_keeps (blockCells r0 c0) _ hrow.1 hrow.2).2

theorem restore_col_sets {hdots vdots B : Nat → Nat → Nat} {r0 c0 i0 : Nat}
    (t : KState) (hb : t.board = B) (h0 : B i0 c0 = 0) (hi0 : i0 < 9) :
    (restore_domains hdots vdots t r0 c0).domains i0 c0 =
      legalList hdots vdots B i0 c0 := by
  unfold restore_domains
  dsimp only
  have hrow := loopList_hit (fun s : KState => s.board = B)
    (fun s : KState => s.domains i0 c0 = legalList hdots vdots B i0 c0)
    (fun s i => restoreCell hdots vdots (restoreCell hdots vdots s r0 i) i c0) i0
    (fun acc i h => by
      show (restoreCell hdots vdots (restoreCell hdots vdots acc r0 i) i c0).board = B
      rw [restoreCell_board, restoreCell_board]; exact h)
    (fun acc hq => by
      show (restoreCell hdots vdots (restoreCell hdots vdots acc r0 i0) i0 c0).domains i0 c0 =
        legalList hdots vdots B i0 c0
      exact restoreCell_sets (by rw [restoreCell_board]; exact hq) h0)
    (fun acc i hq hp => by
      show (restoreCell hdots vdots (restoreCell hdots vdots acc r0 i) i c0).domains i0 c0 =
        legalList hdots vdots B i0 c0
      exact restoreCell_stable _ _ (by rw [restoreCell_board]; exact hq)
        (restoreCell_stable _ _ hq hp))
    (List.range 9) t (List.mem_range.mpr hi0) hb
  exact (loopBlock_keeps (blockCells r0 c0) _ hrow.1 hrow.2).2

theorem restore_block_sets {hdots vdots B : Nat → Nat → Nat} {r0 c0 : Nat}
    {p : Nat × Nat} (t : KState) (hb : t.board = B) (h0 : B p.1 p.2 = 0)
    (hp : p ∈ blockCells r0 c0) :
    (restore_domains hdots vdots t r0 c0).domains p.1 p.2 =
      legalList hdots vdots B p.1 p.2 := by
  unfold restore_domains
  dsimp only
  have hrowpass : (loopList
      (fun s i => restoreCell hdots vdots (restoreCell hdots vdots s r0 i) i c0)
      t (List.range 9)).board = B :=
    loopList_inv (fun s : KState => s.board = B) _
      (fun acc i h => by
        show (restoreCell hdots vdots (restoreCell hdots vdots acc r0 i) i c0).board = B
        rw [restoreCell_board, restoreCell_board]; exact h)
      (List.range 9) t hb
  exact loopBlock_hits h0 (blockCells r0 c0) _ hrowpass hp

theorem restore_untouched {hdots vdots : Nat → Nat → Nat} {r0 c0 r c : Nat}
    (t : KState) (hu : ¬ sameUnit r c r0 c0) :
    (restore_domains hdots vdots t r0 c0).domains r c = t.domains r c := by
  unfold restore_domains
  dsimp only
  have h1' := @loopRow_untouched hdots vdots r0 c0 r c (t.domains r c)
    (fun h => hu (Or.inl h)) (fun h => hu (Or.inr (Or.inl h)))
    (List.range 9) t rfl
  exact loopBlock_untouched (t.domains r c) (blockCells r0 c0) _
    (fun p hp => by
      rintro ⟨rfl, rfl⟩
      exact hu (sameUnit_symm (blockCells_mem_sameUnit hp)))
    h1'
/-- After `restore_domains` at `(r0, c0)`, the domain table satisfies the
invariant provided the untouched cells (outside the unit of `(r0, c0)`)
already did. -/
theorem restore_domains_InvOn {hdots vdots B : Nat → Nat → Nat} {r0 c0 : Nat}
    (t : KState) (hb : t.board = B)
    (hout : ∀ r, r < 9 → ∀ c, c < 9 → B r c = 0 → ¬ sameUnit r c r0 c0 →
      ∀ v, 1 ≤ v → v ≤ 9 → is_valid_assignment hdots vdots B r c v = true →
        v ∈ t.domains r c) :
    InvOn hdots vdots B (restore_domains hdots vdots t r0 c0).domains := by
  intro r hr c hc h0 v h1 h9 hval
  by_cases hu : sameUnit r c r0 c0
  · have hset : (restore_domains hdots vdots t r0 c0).domains r c =
        legalList hdots vdots B r c := by
      rcases hu with hu | hu | hu
      · rw [← hu] at *
        exact restore_row_sets t hb h0 hc
      · rw [← hu] at *
        exact restore_col_sets t hb h0 hr
      · have hx := @restore_block_sets hdots vdots B r0 c0 (r, c) t hb h0
          (mem_blockCells_of_sameBlock hu.1 hu.2)
        simpa using hx
    rw [hset]
    unfold legalList
    rw [List.mem_filter]
    exact ⟨mem_rng19.mpr ⟨h1, h9⟩, hval⟩
  · rw [restore_untouched t hu]
    exact hout r hr c hc h0 hu v h1 h9 hval

/-- The states handed to the recursive `recur` calls while the candidate
loop of `solve` (`solveLoop`) runs on the list `nums` from state `s`. -/
def loopChildren (hdots vdots : Nat → Nat → Nat) (recur : KState → Bool × KState)
    (row col : Nat) : KState → List Nat → List KState
  | _, [] => []
  | s, num :: rest =>
    if is_valid_assignment hdots vdots s.board row col num then
      let s1 : KState := ⟨upd2 s.board row col num, s.domains⟩
      let fcr := forward_check hdots vdots s1 row col num
      if fcr.1 then
        let r2 := recur fcr.2
        if r2.1 then [fcr.2]
        else
          let s4 : KState := ⟨upd2 r2.2.board row col 0, r2.2.domains⟩
          fcr.2 ::
            loopChildren hdots vdots recur row col
              (restore_domains hdots vdots s4 row col) rest
      else
        let s4 : KState := ⟨upd2 fcr.2.board row col 0, fcr.2.domains⟩
        loopChildren hdots vdots recur row col
          (restore_domains hdots vdots s4 row col) rest
    else loopChildren hdots vdots recur row col s rest

/-- The states on which `solve fuel` makes its recursive `solve (fuel - 1)`
calls: the step boundaries one level below `s`. -/
def children (hdots vdots : Nat → Nat → Nat) : Nat → KState → List KState
  | 0, _ => []
  | fuel + 1, s =>
    match select_unassigned_variable s with
    | none => []
    | some (row, col) =>
      loopChildren hdots vdots (fun t => solve hdots vdots fuel t) row col s
        (sortAsc (s.domains row col))

/-- `Reach hdots vdots fuel s fuelT t`: running `solve fuel s`, the step
boundary `solve fuelT t` is reached (the entry of a recursive call at depth
`fuel - fuelT`, the root boundary included). -/
inductive Reach (hdots vdots : Nat → Nat → Nat) (fuel : Nat) (s : KState) :
    Nat → KState → Prop
  | refl : Reach hdots vdots fuel s fuel s
  | step {fuelT : Nat} {t u : KState} :
      Reach hdots vdots fuel s (fuelT + 1) t →
      u ∈ children hdots vdots (fuelT + 1) t →
      Reach hdots vdots fuel s fuelT u

theorem loopChildren_InvOn (hdots vdots : Nat → Nat → Nat) (fuel row col : Nat)
    (hrow : row < 9) (hcol : col < 9)
    (IH : ∀ t : KState, domsOK t.domains → InvOn hdots vdots t.board t.domains →
      (solve hdots vdots fuel t).1 = false →
      InvOn hdots vdots t.board ((solve hdots vdots fuel t).2).domains) :
    ∀ (nums : List Nat), (∀ num ∈ nums, 1 ≤ num ∧ num ≤ 9) →
      ∀ s : KState, s.board row col = 0 → domsOK s.domains →
      InvOn hdots vdots s.board s.domains →
      ((solveLoop hdots vdots (fun t => solve hdots vdots fuel t) row col s nums).1 =
          false →
        InvOn hdots vdots s.board
          ((solveLoop hdots vdots (fun t => solve hdots vdots fuel t) row col
            s nums).2).domains) ∧
      (∀ u ∈ loopChildren hdots vdots (fun t => solve hdots vdots fuel t) row col s nums,
        domsOK u.domains ∧ InvOn hdots vdots u.board u.domains) := by
  intro nums
  induction nums with
  | nil =>
      intro _ s _ _ hI
      exact ⟨fun _ => hI, fun u hu => absurd hu (List.not_mem_nil u)⟩
  | cons num rest ih =>
      intro hnums s hs0 hsOK hI
      have hnum : 1 ≤ num ∧ num ≤ 9 := hnums num (List.mem_cons_self num rest)
      have hrest : ∀ n ∈ rest, 1 ≤ n ∧ n ≤ 9 :=
        fun n hn => hnums n (List.mem_cons_of_mem num hn)
      rw [solveLoop, loopChildren]
      by_cases hvalid : is_valid_assignment hdots vdots s.board row col num = true
      · rw [if_pos hvalid, if_pos hvalid]
        dsimp only
        set s1 : KState := ⟨upd2 s.board row col num, s.domains⟩ with hs1def
        set fcr := forward_check hdots vdots s1 row col num with hfcrdef
        have hfcb : (fcr.2).board = upd2 s.board row col num := by
          rw [hfcrdef]; exact forward_check_board _ _ _ _ _ _
        have hIB : InvOn hdots vdots (upd2 s.board row col num) s.domains := by
          intro r hr c hc h0 v h1 h9 hval
          have hne : ¬(r = row ∧ c = col) := by
            rintro ⟨rfl, rfl⟩
            rw [upd2_self] at h0
            omega
          have h0s : s.board r c = 0 := by rwa [upd2_ne _ _ _ _ hne] at h0
          have hvs : is_valid_assignment hdots vdots s.board r c v = true := by
            refine valid_antitone (fun i j _ _ hij => ?_) h1 hr hc hval
            refine upd2_ne _ _ _ _ ?_
            rintro ⟨rfl, rfl⟩
            exact hij hs0
          exact hI r hr c hc h0s v h1 h9 hvs
        have hfcFP := forward_check_FP hrow hcol (upd2_self s.board row col num)
          (by omega : num ≠ 0) s1 rfl hIB
        rw [← hfcrdef] at hfcFP
        have hfcOK : domsOK (fcr.2).domains := by
          rw [hfcrdef]
          exact forward_check_domsOK _ _ _ _ _ _ hsOK
        by_cases hfc : fcr.1 = true
        · rw [if_pos hfc, if_pos hfc]
          have hchild : domsOK (fcr.2).domains ∧
              InvOn hdots vdots (fcr.2).board (fcr.2).domains := by
            refine ⟨hfcOK, ?_⟩
            rw [hfcb]
            exact hfcFP.2
          by_cases hr2 : (solve hdots vdots fuel fcr.2).1 = true
          · rw [if_pos hr2, if_pos hr2]
            refine ⟨fun hfail => ?_, fun u hu => ?_⟩
            · rw [hr2] at hfail
              exact absurd hfail (by decide)
            · rw [List.mem_singleton] at hu
              subst hu
              exact hchild
          · rw [if_neg hr2, if_neg hr2]
            have hr2f : (solve hdots vdots fuel fcr.2).1 = false :=
              Bool.eq_false_iff.mpr hr2
            have hrb : ((solve hdots vdots fuel fcr.2).2).board =
                upd2 s.board row col num := by
              rw [solve_frame hdots vdots fuel fcr.2 hr2f, hfcb]
            have hIr2 : InvOn hdots vdots (upd2 s.board row col num)
                ((solve hdots vdots fuel fcr.2).2).domains := by
              have := IH fcr.2 hfcOK (by rw [hfcb]; exact hfcFP.2) hr2f
              rwa [hfcb] at this
            set s4 : KState := ⟨upd2 ((solve hdots vdots fuel fcr.2).2).board row col 0,
              ((solve hdots vdots fuel fcr.2).2).domains⟩ with hs4def
            have hs4b : s4.board = s.board := by
              rw [hs4def]
              dsimp only
              rw [hrb, upd2_upd2, upd2_eq_self _ _ _ hs0]
            have hout : ∀ r, r < 9 → ∀ c, c < 9 → s.board r c = 0 →
                ¬ sameUnit r c row col → ∀ v, 1 ≤ v → v ≤ 9 →
                is_valid_assignment hdots vdots s.board r c v = true →
                v ∈ s4.domains r c := by
              intro r hr c hc h0 hnu v h1 h9 hval
              have h0' : upd2 s.board row col num r c = 0 := by
                rw [upd2_ne _ _ _ _ (by rintro ⟨rfl, rfl⟩; exact hnu (Or.inl rfl))]
                exact h0
              have hval' : is_valid_assignment hdots vdots
                  (upd2 s.board row col num) r c v = true :=
                (valid_upd2_not_unit hr hc hnu).mp hval
              exact hIr2 r hr c hc h0' v h1 h9 hval'
            have hInvT : InvOn hdots vdots s.board
                (restore_domains hdots vdots s4 row col).domains :=
              restore_domains_InvOn s4 hs4b hout
            have ht'b : (restore_domains hdots vdots s4 row col).board = s.board := by
              rw [restore_domains_board]
              exact hs4b
            have ht'OK : domsOK (restore_domains hdots vdots s4 row col).domains := by
              refine restore_domains_domsOK _ _ _ _ _ ?_
              rw [hs4def]
              exact solve_domsOK hdots vdots fuel fcr.2 hfcOK
            have hInvT' : InvOn hdots vdots
                (restore_domains hdots vdots s4 row col).board
                (restore_domains hdots vdots s4 row col).domains := by
              rw [ht'b]
              exact hInvT
            have hrec := ih hrest (restore_domains hdots vdots s4 row col)
              (by rw [ht'b]; exact hs0) ht'OK hInvT'
            rw [ht'b] at hrec
            refine ⟨hrec.1, fun u hu => ?_⟩
            rcases List.mem_cons.mp hu with rfl | hu'
            · exact hchild
            · exact hrec.2 u hu'
        · rw [if_neg hfc, if_neg hfc]
          set s4 : KState := ⟨upd2 (fcr.2).board row col 0, (fcr.2).domains⟩ with hs4def
          have hs4b : s4.board = s.board := by
            rw [hs4def]
            dsimp only
            rw [hfcb, upd2_upd2, upd2_eq_self _ _ _ hs0]
          have hout : ∀ r, r < 9 → ∀ c, c < 9 → s.board r c = 0 →
              ¬ sameUnit r c row col → ∀ v, 1 ≤ v → v ≤ 9 →
              is_valid_assignment hdots vdots s.board r c v = true →
              v ∈ s4.domains r c := by
            intro r hr c hc h0 hnu v h1 h9 hval
            have h0' : upd2 s.board row col num r c = 0 := by
              rw [upd2_ne _ _ _ _ (by rintro ⟨rfl, rfl⟩; exact hnu (Or.inl rfl))]
              exact h0
            have hval' : is_valid_assignment hdots vdots
                (upd2 s.board row col num) r c v = true :=
              (valid_upd2_not_unit hr hc hnu).mp hval
            exact hfcFP.2 r hr c hc h0' v h1 h9 hval'
          have hInvT : InvOn hdots vdots s.board
              (restore_domains hdots vdots s4 row col).domains :=
            restore_domains_InvOn s4 hs4b hout
          have ht'b : (restore_domains hdots vdots s4 row col).board = s.board := by
            rw [restore_domains_board]
            exact hs4b
          have ht'OK : domsOK (restore_domains hdots vdots s4 row col).domains := by
            refine restore_domains_domsOK _ _ _ _ _ ?_
            rw [hs4def]
            exact hfcOK
          have hInvT' : InvOn hdots vdots
              (restore_domains hdots vdots s4 row col).board
              (restore_domains hdots vdots s4 row col).domains := by
            rw [ht'b]
            exact hInvT
          have hrec := ih hrest (restore_domains hdots vdots s4 row col)
            (by rw [ht'b]; exact hs0) ht'OK hInvT'
          rw [ht'b] at hrec
          exact hrec
      · rw [if_neg hvalid, if_neg hvalid]
        exact ih hrest s hs0 hsOK hI

theorem solve_InvOn (hdots vdots : Nat → Nat → Nat) :
    ∀ (fuel : Nat) (s : KState), domsOK s.domains →
      InvOn hdots vdots s.board s.domains →
      ((solve hdots vdots fuel s).1 = false →
        InvOn hdots vdots s.board ((solve hdots vdots fuel s).2).domains) ∧
      (∀ u ∈ children hdots vdots fuel s, domsOK u.domains ∧
        InvOn hdots vdots u.board u.domains) := by
  intro fuel
  induction fuel with
  | zero =>
      intro s _ hI
      exact ⟨fun _ => hI, fun u hu => absurd hu (List.not_mem_nil u)⟩
  | succ fuel ih =>
      intro s hsOK hI
      rw [solve, children]
      cases hsel : select_unassigned_variable s with
      | none =>
          dsimp only
          exact ⟨fun h => absurd h (by decide), fun u hu => absurd hu (List.not_mem_nil u)⟩
      | some p =>
          obtain ⟨row, col⟩ := p
          dsimp only
          obtain ⟨hrow, hcol, hs0, -, -⟩ := select_some_spec s (row, col) hsel
          have hnums : ∀ num ∈ sortAsc (s.domains row col), 1 ≤ num ∧ num ≤ 9 :=
            fun num hm => (hsOK row hrow col hcol).1 num (mem_sortAsc.mp hm)
          exact loopChildren_InvOn hdots vdots fuel row col hrow hcol
            (fun t ht hIt hf => ((ih t) ht hIt).1 hf)
            (sortAsc (s.domains row col)) hnums s hs0 hsOK hI

theorem Reach_InvOn (hdots vdots : Nat → Nat → Nat) {fuel fuelT : Nat}
    {s t : KState} (hOK : domsOK s.domains)
    (hI : InvOn hdots vdots s.board s.domains)
    (h : Reach hdots vdots fuel s fuelT t) :
    domsOK t.domains ∧ InvOn hdots vdots t.board t.domains := by
  induction h with
  | refl => exact ⟨hOK, hI⟩
  | step hr hm ih => exact (solve_InvOn hdots vdots _ _ ih.1 ih.2).2 _ hm

/-- **C7.** At every step boundary reachable during the search (`Reach`: the
entry states of the recursive `solve` calls, starting from the initial state
`mkState b` built by `__init__`), for every empty cell the cell's domain
contains every value `v` in 1..9 with `is_valid_assignment` true against the
current board — pruning (`forward_check`) and restoration (`restore_domains`)
never remove a currently-legal value. -/
theorem C7_domains_never_overpruned (hdots vdots b : Nat → Nat → Nat)
    (fuel fuelT : Nat) (t : KState)
    (h : Reach hdots vdots fuel (mkState b) fuelT t) :
    ∀ r, r < 9 → ∀ c, c < 9 → t.board r c = 0 → ∀ v, 1 ≤ v → v ≤ 9 →
      is_valid_assignment hdots vdots t.board r c v = true →
      v ∈ t.domains r c :=
  (Reach_InvOn hdots vdots (domsOK_init b) (InvOn_init hdots vdots b) h).2

theorem C7_domains_never_overpruned_witness :
    5 ∈ (mkState zeroBoard).domains 0 0 :=
  C7_domains_never_overpruned zeroDots zeroDots zeroBoard 1 1 (mkState zeroBoard)
    Reach.refl 0 (by decide) 0 (by decide) (by decide) 5 (by decide) (by decide)
    (by decide)
